import Mathlib

/-!
# Contribution scoring and aggregation (`services/githubService.js`)

A shallow embedding of `GitHubService.calculatePoints` and
`GitHubService.analyzeContributions`, followed by the properties proved of them.

Modelling conventions.

* JavaScript strings are Lean `String`s; every string function used by the service is
  written over the character list so that it evaluates by reduction.
* A property that may be missing (`undefined`) is an `Option`; `||` and `!` on a string
  treat the empty string like a missing one, as JavaScript does.
* Star counts, contribution counters and point totals are natural numbers.  The one place
  where the service can produce a value that is not a number (`NaN`) is `calculatePoints`,
  whose result type `JSNumber` keeps that case.
* Timestamps are the millisecond value of the `Date` built from the ISO string of the
  response (`created_at`, `updated_at`), an `Int`.
* The remote calls are inputs: each fetch receives the outcome of its HTTP request.
* `String.prototype.toLowerCase` is the Unicode case conversion of the JavaScript engine;
  its tables are not part of the repository.  Every definition that calls it takes it as
  the parameter `toLowerCase : String → String`, and every theorem is proved for every
  such function, hence for the engine's.  Evaluations on concrete ASCII inputs pass
  `asciiToLowerCase`, which agrees with it on ASCII strings.
-/

namespace GitHubService

/-! ## Strings -/

/-- The segments of a character list around every occurrence of `sep`
(`String.prototype.split` with a one-character separator): never empty, and the empty
input gives one empty segment. -/
def splitChars (sep : Char) : List Char → List (List Char)
  | [] => [[]]
  | c :: cs =>
    if c = sep then [] :: splitChars sep cs
    else
      match splitChars sep cs with
      | [] => [[c]]
      | seg :: rest => (c :: seg) :: rest

/-- The call `s.split('/')`. -/
def split (s : String) : List String :=
  (splitChars '/' s.data).map String.mk

/-- The call `s.toLowerCase()` on an ASCII string: `A`-`Z` become `a`-`z`, every other
ASCII character is kept.  On strings with other cased letters `String.prototype.toLowerCase`
does more, so this function is used only to evaluate the service on ASCII inputs; the
definitions of the service take the lower-casing function as their parameter
`toLowerCase`, and every theorem below holds for every such function. -/
def asciiToLowerCase (s : String) : String :=
  ⟨s.data.map Char.toLower⟩

/-- The call `s.toLowerCase()` on a string of ASCII and Latin-1 characters: besides `A`-`Z`,
the letters `À`-`Þ` (all of U+00C0 to U+00DE but the sign `×`) move 32 code points up. -/
def latin1ToLowerCase (s : String) : String :=
  ⟨s.data.map (fun c =>
    if 0xC0 ≤ c.toNat ∧ c.toNat ≤ 0xDE ∧ c.toNat ≠ 0xD7 then Char.ofNat (c.toNat + 32)
    else Char.toLower c)⟩

/-- A string value as a JavaScript condition sees it: `none` when the property is
missing or holds the empty string (both falsy), the string otherwise. -/
def truthy : Option String → Option String
  | some s => if s = "" then none else some s
  | none => none

/-! ## Scoring: `calculatePoints` -/

/-- A repository object of the listing `GET /users/{username}/repos`. -/
structure Repository where
  full_name : String
  html_url : Option String
  stargazers_count : Option Nat
  deriving DecidableEq, Repr

/-- The argument of `calculatePoints`: `{ type, repository }`. -/
structure Contribution where
  type : String
  repository : Option Repository
  deriving DecidableEq, Repr

/-- The numbers `calculatePoints` can return: a non-negative integer, or `NaN`. -/
inductive JSNumber where
  | nan
  | int (n : Nat)
  deriving DecidableEq, Repr

/-- What the property read `contributionTypes[key]` yields. -/
inductive PropertyValue where
  /-- An own property of the table: its number. -/
  | number (n : Nat)
  /-- A property inherited from `Object.prototype`: a function (or, for `__proto__`,
  the prototype object itself).  Truthy, and `NaN` when used as a number. -/
  | inherited
  /-- No such property. -/
  | undefined
  deriving DecidableEq, Repr

/-- The property names every object literal inherits from `Object.prototype`. -/
def objectPrototypeKeys : List String :=
  ["constructor", "__defineGetter__", "__defineSetter__", "hasOwnProperty",
   "__lookupGetter__", "__lookupSetter__", "isPrototypeOf", "propertyIsEnumerable",
   "toString", "valueOf", "__proto__", "toLocaleString"]

/-- The table `contributionTypes` (lines 22-29) read with `contributionTypes[key]`.
The table is an object literal, so a key that is not an own property is looked up on
`Object.prototype`. -/
def contributionTypes (key : String) : PropertyValue :=
  if key = "commit" then .number 10
  else if key = "pull_request" then .number 25
  else if key = "issue" then .number 15
  else if key = "review" then .number 20
  else if key = "star" then .number 5
  else if key = "fork" then .number 8
  else if key ∈ objectPrototypeKeys then .inherited
  else .undefined

/-- The multiplier chosen at lines 44-48, in tenths: `popular` 1.5, `medium` 1.2,
`small` 1.0, `personal` 0.8. -/
def multiplierTenths (stars : Nat) : Nat :=
  if stars ≥ 1000 then 15
  else if stars ≥ 100 then 12
  else if stars ≥ 10 then 10
  else 8

/-- The value `Math.round(points * multiplier)` for a numeric `points`.
`Math.round x` is `⌊x + 0.5⌋`; with the multiplier in tenths that is
`⌊(points * tenths + 5) / 10⌋`.  (For the table's bases the floating-point product is
either exact or further than 0.05 from a half, so the rounding is the exact one.) -/
def roundScaled (points tenths : Nat) : Nat :=
  (points * tenths + 5) / 10

/-- The expression `contribution.repository?.stargazers_count || 0` (line 43). -/
def starsOf (repository : Option Repository) : Nat :=
  match repository with
  | some r => r.stargazers_count.getD 0
  | none => 0

/-- The method `calculatePoints(contribution)` (lines 18-51). -/
def calculatePoints (contribution : Contribution) : JSNumber :=
  -- points = contributionTypes[contribution.type] || 5
  let points : PropertyValue :=
    match contributionTypes contribution.type with
    | .number n => if n = 0 then .number 5 else .number n
    | .inherited => .inherited
    | .undefined => .number 5
  let stars := starsOf contribution.repository
  match points with
  | .number n => .int (roundScaled n (multiplierTenths stars))
  | _ => .nan

/-- The integer held by a number that is not `NaN`.  `analyzeContributions` reads the
results of `calculatePoints` through it; its five calls pass own keys of the table, for
which the result is never `NaN` (`calculatePoints_commit` and the four lemmas after it). -/
def JSNumber.toNat : JSNumber → Nat
  | .int n => n
  | .nan => 0

/-! ## Remote data -/

/-- The outcome of an `axios.get`: the response body, or a rejection carrying the HTTP
status when the server answered. -/
inductive HttpResult (α : Type) where
  | success (data : α)
  | failure (status : Option Nat)
  deriving Repr

/-- The field `repo` of an event: `{ name: "owner/reponame" }`. -/
structure EventRepo where
  name : Option String
  deriving DecidableEq, Repr

/-- An event of `GET /users/{username}/events/public`. -/
structure Event where
  type : String
  repo : Option EventRepo
  created_at : Int
  deriving DecidableEq, Repr

/-- An item of `GET /search/issues`; `pull_request` holds whether the item carries the
`pull_request` object. -/
structure SearchItem where
  repository_url : Option String
  pull_request : Bool
  updated_at : Option Int
  created_at : Int
  deriving DecidableEq, Repr

/-- The method `getUserRepositories` (lines 54-65): the body, or the thrown message. -/
def getUserRepositories (response : HttpResult (List Repository)) :
    Except String (List Repository) :=
  match response with
  | .success data => .ok data
  | .failure _ => .error "Failed to fetch repositories"

/-- The method `getUserEvents` (lines 68-79). -/
def getUserEvents (response : HttpResult (List Event)) : Except String (List Event) :=
  match response with
  | .success data => .ok data
  | .failure _ => .error "Failed to fetch user events"

/-- The method `getUserContributionsViaSearch` (lines 82-100): both item lists
concatenated, or the empty list when either request is rejected. -/
def getUserContributionsViaSearch (prResponse issueResponse : HttpResult (List SearchItem)) :
    List SearchItem :=
  match prResponse, issueResponse with
  | .success prItems, .success issueItems => prItems ++ issueItems
  | _, _ => []

/-! ## Aggregation: `analyzeContributions` -/

/-- A value of `contributionMap` (lines 137-145 and 206-214). -/
structure RepoContribution where
  name : String
  owner : String
  url : String
  contributions : Nat
  points : Nat
  lastContribution : Option Int
  stargazers_count : Nat
  deriving DecidableEq, Repr

/-- The `Map` from repository key to record, in insertion order. -/
abbrev ContributionMap := List (String × RepoContribution)

/-- The call `contributionMap.has(key)`. -/
def ContributionMap.has (m : ContributionMap) (key : String) : Bool :=
  m.any (fun e => e.1 = key)

/-- The call `contributionMap.get(key)`. -/
def ContributionMap.get (m : ContributionMap) (key : String) : Option RepoContribution :=
  (m.find? (fun e => e.1 = key)).map (fun e => e.2)

/-- The call `contributionMap.set(key, value)`: a new key goes last, an existing key keeps
its place. -/
def ContributionMap.set (m : ContributionMap) (key : String) (value : RepoContribution) :
    ContributionMap :=
  if m.has key then m.map (fun e => if e.1 = key then (key, value) else e)
  else m ++ [(key, value)]

/-- In-place mutation of the record stored under `key` (the object returned by
`contributionMap.get(key)` is the stored one). -/
def ContributionMap.mutate (m : ContributionMap) (key : String)
    (f : RepoContribution → RepoContribution) : ContributionMap :=
  m.map (fun e => if e.1 = key then (e.1, f e.2) else e)

/-- The two accumulators of `analyzeContributions` (lines 115-116). -/
structure AnalysisState where
  contributionMap : ContributionMap
  totalPoints : Nat
  deriving DecidableEq, Repr

/-- The lookup `repositories.find(r => r.full_name === repoKey)`. -/
def findRepo (repositories : List Repository) (repoKey : String) : Option Repository :=
  repositories.find? (fun r => r.full_name = repoKey)

/-- The `switch (eventType)` of lines 156-174. -/
def eventPoints (eventType : String) (repoData : Option Repository) : JSNumber :=
  if eventType = "PushEvent" then calculatePoints ⟨"commit", repoData⟩
  else if eventType = "PullRequestEvent" then calculatePoints ⟨"pull_request", repoData⟩
  else if eventType = "IssuesEvent" then calculatePoints ⟨"issue", repoData⟩
  else if eventType = "WatchEvent" then calculatePoints ⟨"star", repoData⟩
  else if eventType = "ForkEvent" then calculatePoints ⟨"fork", repoData⟩
  else .int 2

/-- The update of `lastContribution` (lines 181-183 and 231-233):
`if (!last || date > last) last = date`. -/
def laterDate (last : Option Int) (date : Int) : Option Int :=
  match last with
  | none => some date
  | some l => if date > l then some date else some l

/-- The body of `events.forEach` (lines 120-184); `toLowerCase` is
`String.prototype.toLowerCase`. -/
def processEvent (toLowerCase : String → String)
    (username : String) (repositories : List Repository)
    (st : AnalysisState) (event : Event) : AnalysisState :=
  -- if (!repo || !repo.name) return;
  match truthy (event.repo.bind (fun repo => repo.name)) with
  | none => st
  | some repoKey =>
    -- const [repoOwner, repoName] = repoKey.split('/');
    let parts := split repoKey
    let repoName := parts[1]?
    -- if (!repoOwner || repoOwner.toLowerCase() === username.toLowerCase()) return;
    match truthy parts[0]? with
    | none => st
    | some repoOwner =>
      if toLowerCase repoOwner = toLowerCase username then st
      else
        let map₁ :=
          if st.contributionMap.has repoKey then st.contributionMap
          else
            let repoData := findRepo repositories repoKey
            st.contributionMap.set repoKey
              { name := (truthy repoName).getD repoKey
                owner := repoOwner
                url := (truthy (repoData.bind (fun r => r.html_url))).getD
                  ("https://github.com/" ++ repoKey)
                contributions := 0
                points := 0
                lastContribution := none
                stargazers_count := starsOf repoData }
        let repoData := findRepo repositories repoKey
        let points := (eventPoints event.type repoData).toNat
        let map₂ := map₁.mutate repoKey (fun rc =>
          { rc with
            contributions := rc.contributions + 1
            points := rc.points + points
            lastContribution := laterDate rc.lastContribution event.created_at })
        { contributionMap := map₂, totalPoints := st.totalPoints + points }

/-- The element `xs[i]` of an array: `undefined` outside `0 ≤ i < xs.length`. -/
def index (xs : List String) (i : Int) : Option String :=
  if i < 0 then none else xs[i.toNat]?

/-- A value inside a template literal: `undefined` prints as the word. -/
def template (v : Option String) : String :=
  v.getD "undefined"

/-- The exception a `forEach` body can raise. -/
inductive JSError where
  /-- Reading a property of `undefined`. -/
  | typeError
  deriving DecidableEq, Repr

/-- The body of `searchContributions.forEach` (lines 188-234); `toLowerCase` is
`String.prototype.toLowerCase`.  `repoOwner` is `undefined` when the url has no `/`, and
`repoOwner.toLowerCase()` then throws. -/
def processSearchItem (toLowerCase : String → String)
    (username : String) (repositories : List Repository)
    (st : AnalysisState) (item : SearchItem) : Except JSError AnalysisState :=
  -- if (!repoUrl) return;
  match truthy item.repository_url with
  | none => .ok st
  | some repoUrl =>
    let urlParts := split repoUrl
    let repoOwner := index urlParts ((urlParts.length : Int) - 2)
    -- urlParts is never empty, so repoName is a string (`index_last_ne_none`)
    let repoName := index urlParts ((urlParts.length : Int) - 1)
    let repoKey := template repoOwner ++ "/" ++ template repoName
    match repoOwner with
    | none => .error .typeError
    | some owner =>
      if toLowerCase owner = toLowerCase username then .ok st
      else
        let map₁ :=
          if st.contributionMap.has repoKey then st.contributionMap
          else
            let repoData := findRepo repositories repoKey
            st.contributionMap.set repoKey
              { name := template repoName
                owner := owner
                url := "https://github.com/" ++ repoKey
                contributions := 0
                points := 0
                lastContribution := none
                stargazers_count := starsOf repoData }
        let points :=
          if item.pull_request then
            (calculatePoints ⟨"pull_request", findRepo repositories repoKey⟩).toNat
          else (calculatePoints ⟨"issue", findRepo repositories repoKey⟩).toNat
        -- new Date(item.updated_at || item.created_at)
        let itemDate := item.updated_at.getD item.created_at
        let map₂ := map₁.mutate repoKey (fun rc =>
          { rc with
            contributions := rc.contributions + 1
            points := rc.points + points
            lastContribution := laterDate rc.lastContribution itemDate })
        .ok { contributionMap := map₂, totalPoints := st.totalPoints + points }

/-- A record of the returned `repositories` array (lines 245-252). -/
structure RepositorySummary where
  name : String
  owner : String
  url : String
  contributions : Nat
  points : Nat
  lastContribution : Option Int
  deriving DecidableEq, Repr

/-- The value `analyzeContributions` returns (lines 243-254). -/
structure ContributionSummary where
  totalPoints : Nat
  repositories : List RepositorySummary
  lastUpdated : Int
  deriving DecidableEq, Repr

/-- The projection of lines 245-252: every field but `stargazers_count`. -/
def RepoContribution.strip (repo : RepoContribution) : RepositorySummary :=
  { name := repo.name, owner := repo.owner, url := repo.url
    contributions := repo.contributions, points := repo.points
    lastContribution := repo.lastContribution }

/-- The order `.sort((a, b) => b.points - a.points)` leaves `a` before `b` in: the
comparator's value is not positive. -/
def byPoints (a b : RepoContribution) : Prop :=
  b.points ≤ a.points

instance : DecidableRel byPoints := fun a b => inferInstanceAs (Decidable (b.points ≤ a.points))

instance : IsTotal RepoContribution byPoints := ⟨fun a b => Nat.le_total b.points a.points⟩

instance : IsTrans RepoContribution byPoints := ⟨fun _ _ _ hab hbc => Nat.le_trans hbc hab⟩

/-- The call `array.sort(comparator)`: `Array.prototype.sort` is a stable sort, here the
insertion sort. -/
def sortByPoints (records : List RepoContribution) : List RepoContribution :=
  records.insertionSort byPoints

/-- Both `forEach` loops (lines 115-234): the events, then the search items. -/
def aggregate (toLowerCase : String → String)
    (username : String) (repositories : List Repository) (events : List Event)
    (searchContributions : List SearchItem) : Except JSError AnalysisState :=
  searchContributions.foldlM (processSearchItem toLowerCase username repositories)
    (events.foldl (processEvent toLowerCase username repositories) ⟨[], 0⟩)

/-- The summary built at lines 240-254 from the accumulators. -/
def buildSummary (st : AnalysisState) (now : Int) : ContributionSummary :=
  { totalPoints := st.totalPoints
    repositories := (sortByPoints (st.contributionMap.map (fun e => e.2))).map
      RepoContribution.strip
    lastUpdated := now }

/-- The `try` block of `analyzeContributions` once the three fetches have settled. -/
def analyzeFetched (toLowerCase : String → String)
    (username : String) (repositories : List Repository)
    (events : List Event) (searchContributions : List SearchItem) (now : Int) :
    Except String ContributionSummary :=
  match aggregate toLowerCase username repositories events searchContributions with
  | .ok st => .ok (buildSummary st now)
  | .error _ => .error "Failed to analyze contributions"

/-- The method `analyzeContributions(username)` (lines 103-259), given the engine's
`toLowerCase`, the outcome of the four HTTP requests and the clock reading `now` of
`new Date()`.  Every exception inside the `try` is replaced by the one message of
line 257. -/
def analyzeContributions (toLowerCase : String → String)
    (username : String)
    (reposResponse : HttpResult (List Repository))
    (eventsResponse : HttpResult (List Event))
    (prResponse issueResponse : HttpResult (List SearchItem)) (now : Int) :
    Except String ContributionSummary :=
  match getUserRepositories reposResponse, getUserEvents eventsResponse with
  | .ok repositories, .ok events =>
    analyzeFetched toLowerCase username repositories events
      (getUserContributionsViaSearch prResponse issueResponse) now
  | _, _ => .error "Failed to analyze contributions"

/-! ## Verification: `verifyUsername` -/

/-- The body of a successful `GET /users/{username}`: the six fields the service reads,
and three of the many it does not. -/
structure UserResponse where
  login : String
  name : Option String
  avatar_url : String
  public_repos : Nat
  followers : Nat
  following : Nat
  id : Nat
  html_url : String
  bio : Option String
  deriving DecidableEq, Repr

/-- The object stored under `data` in the result of `verifyUsername` (lines 270-277). -/
structure UserData where
  login : String
  name : Option String
  avatar_url : String
  public_repos : Nat
  followers : Nat
  following : Nat
  deriving DecidableEq, Repr

/-- The value `verifyUsername` returns: `{ exists: true, data }` or `{ exists: false }`. -/
structure Verification where
  «exists» : Bool
  data : Option UserData
  deriving DecidableEq, Repr

/-- The method `verifyUsername(username)` (lines 262-285), given the outcome of its
request: the profile on success, `{ exists: false }` when the rejection carries status
404, the thrown message otherwise. -/
def verifyUsername (response : HttpResult UserResponse) : Except String Verification :=
  match response with
  | .success data =>
    .ok
      { «exists» := true
        data := some
          { login := data.login
            name := data.name
            avatar_url := data.avatar_url
            public_repos := data.public_repos
            followers := data.followers
            following := data.following } }
  | .failure status =>
    -- if (error.response?.status === 404) return { exists: false };
    if status = some 404 then .ok { «exists» := false, data := none }
    else .error "Failed to verify GitHub username"

/-! ## The activities the two loops fold

Both loop bodies do the same thing to the accumulators once their guards have passed:
create the record under the key if it is new, then count, score and date the activity.
`Activity` holds what one loop iteration contributes, `eventActivity` and
`searchActivity` compute it as the loop bodies do, and `applyActivity` is the common
update; `processEvent_eq` and `processSearchItem_eq` show the loop bodies are exactly that.
-/

/-- What one folded (non-skipped) event or search item contributes: its repository key,
the fields a record created by it gets, the points it is awarded and its timestamp. -/
structure Activity where
  repoKey : String
  name : String
  owner : String
  url : String
  stargazers_count : Nat
  points : Nat
  date : Int
  deriving DecidableEq, Repr

/-- The record created on the first sight of a key. -/
def Activity.fresh (a : Activity) : RepoContribution :=
  { name := a.name, owner := a.owner, url := a.url, contributions := 0, points := 0
    lastContribution := none, stargazers_count := a.stargazers_count }

/-- The mutation one activity applies to its record. -/
def Activity.bump (a : Activity) (rc : RepoContribution) : RepoContribution :=
  { rc with
    contributions := rc.contributions + 1
    points := rc.points + a.points
    lastContribution := laterDate rc.lastContribution a.date }

/-- The update of the accumulators by one folded activity. -/
def applyActivity (st : AnalysisState) (a : Activity) : AnalysisState :=
  let map₁ :=
    if st.contributionMap.has a.repoKey then st.contributionMap
    else st.contributionMap.set a.repoKey a.fresh
  { contributionMap := map₁.mutate a.repoKey a.bump
    totalPoints := st.totalPoints + a.points }

/-- The activity of an event, `none` when one of the guards of lines 122 and 129
skips it. -/
def eventActivity (toLowerCase : String → String)
    (username : String) (repositories : List Repository) (event : Event) :
    Option Activity :=
  match truthy (event.repo.bind (fun repo => repo.name)) with
  | none => none
  | some repoKey =>
    match truthy (split repoKey)[0]? with
    | none => none
    | some repoOwner =>
      if toLowerCase repoOwner = toLowerCase username then none
      else
        let repoData := findRepo repositories repoKey
        some
          { repoKey := repoKey
            name := (truthy (split repoKey)[1]?).getD repoKey
            owner := repoOwner
            url := (truthy (repoData.bind (fun r => r.html_url))).getD
              ("https://github.com/" ++ repoKey)
            stargazers_count := starsOf repoData
            points := (eventPoints event.type repoData).toNat
            date := event.created_at }

/-- The activity of a search item: `none` when the guards of lines 190 and 198 skip it,
an error when line 198 throws. -/
def searchActivity (toLowerCase : String → String)
    (username : String) (repositories : List Repository) (item : SearchItem) :
    Except JSError (Option Activity) :=
  match truthy item.repository_url with
  | none => .ok none
  | some repoUrl =>
    let urlParts := split repoUrl
    let repoName := index urlParts ((urlParts.length : Int) - 1)
    match index urlParts ((urlParts.length : Int) - 2) with
    | none => .error .typeError
    | some owner =>
      let repoKey := owner ++ "/" ++ template repoName
      if toLowerCase owner = toLowerCase username then .ok none
      else
        let repoData := findRepo repositories repoKey
        .ok (some
          { repoKey := repoKey
            name := template repoName
            owner := owner
            url := "https://github.com/" ++ repoKey
            stargazers_count := starsOf repoData
            points :=
              if item.pull_request then (calculatePoints ⟨"pull_request", repoData⟩).toNat
              else (calculatePoints ⟨"issue", repoData⟩).toNat
            date := item.updated_at.getD item.created_at })

/-- The activities of a list of search items in order, or the first error. -/
def searchActivities (toLowerCase : String → String)
    (username : String) (repositories : List Repository) :
    List SearchItem → Except JSError (List Activity)
  | [] => .ok []
  | item :: rest =>
    match searchActivity toLowerCase username repositories item with
    | .error e => .error e
    | .ok found =>
      match searchActivities toLowerCase username repositories rest with
      | .error e => .error e
      | .ok acts => .ok (found.toList ++ acts)

/-- The activities of the events in order. -/
def eventActivities (toLowerCase : String → String)
    (username : String) (repositories : List Repository)
    (events : List Event) : List Activity :=
  events.filterMap (eventActivity toLowerCase username repositories)

/-- All folded activities of one run, in the order they are folded: events first. -/
def activities (toLowerCase : String → String)
    (username : String) (repositories : List Repository) (events : List Event)
    (searchContributions : List SearchItem) : Except JSError (List Activity) :=
  match searchActivities toLowerCase username repositories searchContributions with
  | .error e => .error e
  | .ok acts => .ok (eventActivities toLowerCase username repositories events ++ acts)

/-- The accumulators after folding a list of activities from the empty map. -/
def folded (acts : List Activity) : AnalysisState :=
  acts.foldl applyActivity ⟨[], 0⟩

/-- The keys of a map in insertion order. -/
def ContributionMap.keys (m : ContributionMap) : List String :=
  m.map (fun e => e.1)

/-- The activities folded under one key. -/
def activitiesOf (key : String) (acts : List Activity) : List Activity :=
  acts.filter (fun a => a.repoKey = key)

/-- The keys of a list in the order of their first occurrence. -/
def firstOccurrences : List String → List String
  | [] => []
  | k :: ks => k :: (firstOccurrences ks).filter (fun k' => k' ≠ k)

/-- What the record stored under a key says about the activities folded under it:
no record exactly when there is no such activity; otherwise the identity fields come from
the first of them, the counters count and add up all of them, and the date is the
greatest of theirs. -/
def Summarises (stored : Option RepoContribution) (acts : List Activity) : Prop :=
  match stored with
  | none => acts = []
  | some rc =>
    (∃ first, acts.head? = some first ∧ rc.name = first.name ∧ rc.owner = first.owner ∧
        rc.url = first.url ∧ rc.stargazers_count = first.stargazers_count) ∧
      rc.contributions = acts.length ∧
      rc.points = (acts.map (fun a => a.points)).sum ∧
      ∃ d, rc.lastContribution = some d ∧ d ∈ acts.map (fun a => a.date) ∧
        ∀ t ∈ acts.map (fun a => a.date), t ≤ d

/-! ## The scoring rule as the specification words it -/

/-- The base value of an activity type: the fixed table, and 5 for any other type. -/
def specBase (type : String) : ℚ :=
  if type = "commit" then 10
  else if type = "pull_request" then 25
  else if type = "issue" then 15
  else if type = "review" then 20
  else if type = "star" then 5
  else if type = "fork" then 8
  else 5

/-- The popularity multiplier of a star count. -/
def specMultiplier (stars : Nat) : ℚ :=
  if stars ≥ 1000 then 3 / 2
  else if stars ≥ 100 then 6 / 5
  else if stars ≥ 10 then 1
  else 4 / 5

/-- Rounding to the nearest integer, a half going up. -/
def roundHalfUp (q : ℚ) : ℤ :=
  ⌊q + 1 / 2⌋

/-! ## A sample run -/

deriving instance DecidableEq for Except

/-- A listing with one popular repository. -/
def sampleRepositories : List Repository :=
  [⟨"rails/rails", some "https://github.com/rails/rails", some 5000⟩]

/-- Four events: two on `rails/rails`, one on a repository of the queried user, one of an
unmapped type on `vuejs/vue`. -/
def sampleEvents : List Event :=
  [⟨"PushEvent", some ⟨some "rails/rails"⟩, 100⟩,
   ⟨"PullRequestEvent", some ⟨some "rails/rails"⟩, 300⟩,
   ⟨"WatchEvent", some ⟨some "Octocat/Hello-World"⟩, 400⟩,
   ⟨"IssueCommentEvent", some ⟨some "vuejs/vue"⟩, 200⟩]

/-- One authored pull request. -/
def samplePullRequests : List SearchItem :=
  [⟨some "https://api.github.com/repos/rails/rails", true, some 250, 50⟩]

/-- One authored issue, without `updated_at`. -/
def sampleIssues : List SearchItem :=
  [⟨some "https://api.github.com/repos/vuejs/vue", false, none, 150⟩]

/-- The summary of the sample run for `octocat` at clock reading 1000. -/
def sampleSummary : ContributionSummary :=
  { totalPoints := 105
    repositories :=
      [⟨"rails", "rails", "https://github.com/rails/rails", 3, 91, some 300⟩,
       ⟨"vue", "vuejs", "https://github.com/vuejs/vue", 2, 14, some 200⟩]
    lastUpdated := 1000 }

/-- A listing whose star counts put four repositories in two tiers. -/
def rankedRepositories : List Repository :=
  [⟨"a/x", none, some 50⟩, ⟨"b/y", none, some 500⟩, ⟨"c/z", none, some 500⟩,
   ⟨"d/w", none, some 50⟩]

/-- Four events scoring 10, 30, 30 and 5 on four repositories. -/
def rankedEvents : List Event :=
  [⟨"PushEvent", some ⟨some "a/x"⟩, 1⟩, ⟨"PullRequestEvent", some ⟨some "b/y"⟩, 2⟩,
   ⟨"PullRequestEvent", some ⟨some "c/z"⟩, 3⟩, ⟨"WatchEvent", some ⟨some "d/w"⟩, 4⟩]

/-- The summary of the ranked run for `octocat` at clock reading 9. -/
def rankedSummary : ContributionSummary :=
  { totalPoints := 75
    repositories :=
      [⟨"y", "b", "https://github.com/b/y", 1, 30, some 2⟩,
       ⟨"z", "c", "https://github.com/c/z", 1, 30, some 3⟩,
       ⟨"x", "a", "https://github.com/a/x", 1, 10, some 1⟩,
       ⟨"w", "d", "https://github.com/d/w", 1, 5, some 4⟩]
    lastUpdated := 9 }

/-- The owner segment of an event's repository name: the text before the first `/`
(`repoKey.split('/')[0]`), when the event names a repository. -/
def Event.ownerSegment (event : Event) : Option String :=
  (event.repo.bind (fun repo => repo.name)).bind (fun repoKey => (split repoKey)[0]?)

/-- A repository name of the form GitHub documents for events, `owner/reponame`: exactly
two segments around one `/`, the second not empty. -/
def OwnerSlashName (repoKey : String) : Prop :=
  (split repoKey).length = 2 ∧ (split repoKey)[1]? ≠ some ""

instance (repoKey : String) : Decidable (OwnerSlashName repoKey) :=
  inferInstanceAs (Decidable (_ ∧ _))

/-- Two events whose names differ but split into the same first two segments. -/
def overlongEvents : List Event :=
  [⟨"PushEvent", some ⟨some "rails/rails"⟩, 100⟩,
   ⟨"PushEvent", some ⟨some "rails/rails/extra"⟩, 200⟩]

/-- The profile GitHub returns for `octocat`. -/
def sampleUser : UserResponse :=
  { login := "octocat", name := some "The Octocat"
    avatar_url := "https://avatars.githubusercontent.com/u/583231"
    public_repos := 8, followers := 100, following := 9, id := 583231
    html_url := "https://github.com/octocat", bio := none }

/-- A listing entry for `rails/rails` whose `html_url` is not the synthesized one. -/
def mirroredRepositories : List Repository :=
  [⟨"rails/rails", some "https://example.org/mirror/rails", some 5000⟩]

/-- The fields a record gets at creation: name, owner, url, popularity. -/
def RepoContribution.identity (rc : RepoContribution) : String × String × String × Nat :=
  (rc.name, rc.owner, rc.url, rc.stargazers_count)

/-- A listing as `GET /users/octocat/repos` returns it: repositories of the user. -/
def ownRepositories : List Repository :=
  [⟨"octocat/Hello-World", some "https://github.com/octocat/Hello-World", some 5000⟩,
   ⟨"Octocat/Spoon-Knife", some "https://github.com/octocat/Spoon-Knife", some 12000⟩]

/-- The summary of the sample events and search items for `octocat` against the user's
own listing, at clock reading 1000. -/
def ownSummary : ContributionSummary :=
  { totalPoints := 62
    repositories :=
      [⟨"rails", "rails", "https://github.com/rails/rails", 3, 48, some 300⟩,
       ⟨"vue", "vuejs", "https://github.com/vuejs/vue", 2, 14, some 200⟩]
    lastUpdated := 1000 }

/-- The listing of the user `école`, whose login the platform shows as `ÉCOLE`. -/
def ecoleRepositories : List Repository :=
  [⟨"ÉCOLE/repo", some "https://github.com/ÉCOLE/repo", some 5000⟩]

/-- An event on the user's own repository and one on `rails/rails`. -/
def ecoleEvents : List Event :=
  [⟨"PushEvent", some ⟨some "ÉCOLE/repo"⟩, 100⟩,
   ⟨"PushEvent", some ⟨some "rails/rails"⟩, 200⟩]

/-- The summary of the run for `école` at clock reading 1000. -/
def ecoleSummary : ContributionSummary :=
  { totalPoints := 8
    repositories := [⟨"rails", "rails", "https://github.com/rails/rails", 1, 8, some 200⟩]
    lastUpdated := 1000 }

/-! ## The loop bodies as activities -/

theorem processEvent_eq (toLowerCase : String → String)
    (username : String) (repositories : List Repository)
    (st : AnalysisState) (event : Event) :
    processEvent toLowerCase username repositories st event =
      match eventActivity toLowerCase username repositories event with
      | none => st
      | some a => applyActivity st a := by
  unfold processEvent eventActivity
  cases truthy (event.repo.bind (fun repo => repo.name)) with
  | none => rfl
  | some repoKey =>
    dsimp only
    cases truthy (split repoKey)[0]? with
    | none => rfl
    | some repoOwner =>
      dsimp only
      by_cases h : toLowerCase repoOwner = toLowerCase username
      · simp [h]
      · simp only [h, if_false]
        rfl

theorem processSearchItem_eq (toLowerCase : String → String)
    (username : String) (repositories : List Repository)
    (st : AnalysisState) (item : SearchItem) :
    processSearchItem toLowerCase username repositories st item =
      match searchActivity toLowerCase username repositories item with
      | .error e => .error e
      | .ok none => .ok st
      | .ok (some a) => .ok (applyActivity st a) := by
  unfold processSearchItem searchActivity
  cases truthy item.repository_url with
  | none => rfl
  | some repoUrl =>
    dsimp only
    cases index (split repoUrl) ((split repoUrl).length - 2) with
    | none => rfl
    | some owner =>
      dsimp only
      by_cases h : toLowerCase owner = toLowerCase username
      · simp [h]
      · simp only [h, if_false, template, Option.getD_some]
        rfl

theorem foldl_processEvent (toLowerCase : String → String)
    (username : String) (repositories : List Repository)
    (events : List Event) (st : AnalysisState) :
    events.foldl (processEvent toLowerCase username repositories) st =
      (eventActivities toLowerCase username repositories events).foldl applyActivity st := by
  induction events generalizing st with
  | nil => rfl
  | cons e es ih =>
    rw [List.foldl_cons, ih, processEvent_eq]
    unfold eventActivities
    cases h : eventActivity toLowerCase username repositories e with
    | none => simp [List.filterMap_cons, h]
    | some a => simp [List.filterMap_cons, h]

theorem foldlM_processSearchItem (toLowerCase : String → String)
    (username : String) (repositories : List Repository)
    (items : List SearchItem) (st : AnalysisState) :
    items.foldlM (processSearchItem toLowerCase username repositories) st =
      match searchActivities toLowerCase username repositories items with
      | .error e => .error e
      | .ok acts => .ok (acts.foldl applyActivity st) := by
  induction items generalizing st with
  | nil => rfl
  | cons i is ih =>
    rw [List.foldlM_cons, processSearchItem_eq]
    unfold searchActivities
    cases h : searchActivity toLowerCase username repositories i with
    | error e => rfl
    | ok found =>
      cases found with
      | none =>
        show List.foldlM _ st is = _
        rw [ih]
        cases searchActivities toLowerCase username repositories is <;> rfl
      | some a =>
        show List.foldlM _ (applyActivity st a) is = _
        rw [ih]
        cases searchActivities toLowerCase username repositories is <;> rfl

/-- The two loops fold exactly the activities of the run, in order, from the empty map. -/
theorem aggregate_eq (toLowerCase : String → String)
    (username : String) (repositories : List Repository)
    (events : List Event) (searchContributions : List SearchItem) :
    aggregate toLowerCase username repositories events searchContributions =
      match activities toLowerCase username repositories events searchContributions with
      | .error e => .error e
      | .ok acts => .ok (folded acts) := by
  unfold aggregate activities folded
  rw [foldlM_processSearchItem, foldl_processEvent]
  cases searchActivities toLowerCase username repositories searchContributions with
  | error e => rfl
  | ok acts => simp [List.foldl_append]

/-! ## The map operations -/

theorem get_nil (k : String) : ContributionMap.get [] k = none := rfl

theorem get_cons (e : String × RepoContribution) (m : ContributionMap) (k : String) :
    ContributionMap.get (e :: m) k = if e.1 = k then some e.2 else ContributionMap.get m k := by
  by_cases h : e.1 = k <;> simp [ContributionMap.get, List.find?_cons, h]

theorem mutate_cons (e : String × RepoContribution) (m : ContributionMap) (k : String)
    (f : RepoContribution → RepoContribution) :
    ContributionMap.mutate (e :: m) k f =
      (if e.1 = k then (e.1, f e.2) else e) :: ContributionMap.mutate m k f := rfl

theorem keys_cons (e : String × RepoContribution) (m : ContributionMap) :
    ContributionMap.keys (e :: m) = e.1 :: ContributionMap.keys m := rfl

theorem has_iff_mem_keys (m : ContributionMap) (k : String) :
    m.has k = true ↔ k ∈ m.keys := by
  simp only [ContributionMap.has, ContributionMap.keys, List.any_eq_true, List.mem_map,
    decide_eq_true_eq]

theorem has_eq_false (m : ContributionMap) (k : String) (h : k ∉ m.keys) :
    m.has k = false := by
  cases hb : m.has k with
  | false => rfl
  | true => exact absurd ((has_iff_mem_keys m k).1 hb) h

theorem get_eq_none_iff (m : ContributionMap) (k : String) :
    m.get k = none ↔ k ∉ m.keys := by
  induction m with
  | nil => simp [get_nil, ContributionMap.keys]
  | cons e m ih =>
    rw [get_cons, keys_cons, List.mem_cons, not_or]
    by_cases h : e.1 = k
    · simp [h]
    · simp only [h, if_false, ih]
      exact ⟨fun h' => ⟨fun hk => h hk.symm, h'⟩, fun h' => h'.2⟩

theorem keys_mutate (m : ContributionMap) (k : String)
    (f : RepoContribution → RepoContribution) : (m.mutate k f).keys = m.keys := by
  induction m with
  | nil => rfl
  | cons e m ih =>
    rw [mutate_cons, keys_cons, keys_cons, ih]
    by_cases h : e.1 = k <;> simp [h]

theorem get_mutate (m : ContributionMap) (k k' : String)
    (f : RepoContribution → RepoContribution) :
    (m.mutate k f).get k' = if k' = k then (m.get k').map f else m.get k' := by
  induction m with
  | nil => simp [ContributionMap.mutate, get_nil]
  | cons e m ih =>
    rw [mutate_cons, get_cons, get_cons, ih]
    by_cases he : e.1 = k
    · subst he
      by_cases hk : k' = e.1
      · simp [hk]
      · have : ¬ e.1 = k' := fun h => hk h.symm
        simp [hk, this]
    · by_cases hk : k' = k
      · have : ¬ e.1 = k' := fun h => he (h.trans hk)
        simp [he, hk, this]
      · by_cases he' : e.1 = k' <;> simp [he, hk, he']

theorem keys_set_new (m : ContributionMap) (k : String) (v : RepoContribution)
    (h : k ∉ m.keys) : (m.set k v).keys = m.keys ++ [k] := by
  have hh : m.has k = false := by
    cases hb : m.has k with
    | false => rfl
    | true => exact absurd ((has_iff_mem_keys m k).1 hb) h
  simp [ContributionMap.set, hh, ContributionMap.keys]

theorem get_set_new (m : ContributionMap) (k k' : String) (v : RepoContribution)
    (h : k ∉ m.keys) : (m.set k v).get k' = if k' = k then some v else m.get k' := by
  have hh : m.has k = false := by
    cases hb : m.has k with
    | false => rfl
    | true => exact absurd ((has_iff_mem_keys m k).1 hb) h
  simp only [ContributionMap.set, hh, Bool.false_eq_true, if_false, ContributionMap.get,
    List.find?_append]
  by_cases hk : k' = k
  · subst hk
    have hn := (get_eq_none_iff m k').2 h
    simp only [ContributionMap.get, Option.map_eq_none'] at hn
    simp [hn]
  · have : ¬ k = k' := fun h => hk h.symm
    cases hf : List.find? (fun e => decide (e.1 = k')) m <;> simp [hk, this]

/-- The keys after one activity: unchanged when its key is known, else its key is
appended. -/
theorem keys_applyActivity (st : AnalysisState) (a : Activity) :
    (applyActivity st a).contributionMap.keys =
      if a.repoKey ∈ st.contributionMap.keys then st.contributionMap.keys
      else st.contributionMap.keys ++ [a.repoKey] := by
  unfold applyActivity
  simp only [keys_mutate]
  by_cases h : a.repoKey ∈ st.contributionMap.keys
  · simp [h, (has_iff_mem_keys _ _).2 h]
  · have hh : st.contributionMap.has a.repoKey = false := by
      cases hb : st.contributionMap.has a.repoKey with
      | false => rfl
      | true => exact absurd ((has_iff_mem_keys _ _).1 hb) h
    simp [h, hh, keys_set_new _ _ _ h]

/-- The record under a key after one activity. -/
theorem get_applyActivity (st : AnalysisState) (a : Activity) (k : String) :
    (applyActivity st a).contributionMap.get k =
      if k = a.repoKey then some (a.bump ((st.contributionMap.get k).getD a.fresh))
      else st.contributionMap.get k := by
  unfold applyActivity
  simp only [get_mutate]
  by_cases h : a.repoKey ∈ st.contributionMap.keys
  · simp only [(has_iff_mem_keys _ _).2 h, if_true]
    by_cases hk : k = a.repoKey
    · subst hk
      have : st.contributionMap.get a.repoKey ≠ none := fun hn =>
        (get_eq_none_iff _ _).1 hn h
      cases hg : st.contributionMap.get a.repoKey with
      | none => exact absurd hg this
      | some rc => simp
    · simp [hk]
  · have hh : st.contributionMap.has a.repoKey = false := by
      cases hb : st.contributionMap.has a.repoKey with
      | false => rfl
      | true => exact absurd ((has_iff_mem_keys _ _).1 hb) h
    simp only [hh, Bool.false_eq_true, if_false, get_set_new _ _ _ _ h]
    by_cases hk : k = a.repoKey
    · subst hk
      simp [(get_eq_none_iff _ _).2 h]
    · simp [hk]

theorem totalPoints_applyActivity (st : AnalysisState) (a : Activity) :
    (applyActivity st a).totalPoints = st.totalPoints + a.points := rfl

theorem mem_iff_get (m : ContributionMap) (hm : m.keys.Nodup) (k : String)
    (rc : RepoContribution) : (k, rc) ∈ m ↔ m.get k = some rc := by
  induction m with
  | nil => simp [get_nil]
  | cons e m ih =>
    rw [keys_cons, List.nodup_cons] at hm
    rw [get_cons, List.mem_cons, ih hm.2]
    by_cases he : e.1 = k
    · subst he
      simp only [if_true, Option.some.injEq]
      constructor
      · rintro (h | h)
        · rw [← h]
        · have hin : e.1 ∈ ContributionMap.keys m := by
            by_contra hc
            rw [(get_eq_none_iff m e.1).2 hc] at h
            exact Option.noConfusion h
          exact absurd hin hm.1
      · intro h
        left
        rw [← h]
    · simp only [he, if_false]
      constructor
      · rintro (h | h)
        · exact absurd (by rw [← h]) he
        · exact h
      · exact Or.inr

/-! ## Folding a list of activities -/

theorem folded_snoc (acts : List Activity) (a : Activity) :
    folded (acts ++ [a]) = applyActivity (folded acts) a := by
  simp [folded, List.foldl_append]

theorem activitiesOf_snoc (k : String) (acts : List Activity) (a : Activity) :
    activitiesOf k (acts ++ [a]) =
      activitiesOf k acts ++ (if a.repoKey = k then [a] else []) := by
  by_cases h : a.repoKey = k <;> simp [activitiesOf, List.filter_append, List.filter_cons, h]

theorem summarises_step (stored : Option RepoContribution) (acts : List Activity)
    (a : Activity) (h : Summarises stored acts) :
    Summarises (some (a.bump (stored.getD a.fresh))) (acts ++ [a]) := by
  cases stored with
  | none =>
    have hnil : acts = [] := h
    subst hnil
    refine ⟨⟨a, rfl, rfl, rfl, rfl, rfl⟩, ?_, ?_, a.date, ?_, ?_, ?_⟩
    · simp [Activity.bump, Activity.fresh]
    · simp [Activity.bump, Activity.fresh]
    · simp [Activity.bump, Activity.fresh, laterDate]
    · simp
    · simp
  | some rc =>
    obtain ⟨⟨first, hhead, hn, ho, hu, hs⟩, hc, hp, d, hd, hmem, hmax⟩ := h
    refine ⟨⟨first, ?_, hn, ho, hu, hs⟩, ?_, ?_, ?_⟩
    · cases acts with
      | nil => simp at hhead
      | cons x xs => simpa using hhead
    · simp [Activity.bump, hc]
    · simp [Activity.bump, hp]
    · by_cases hlt : a.date > d
      · refine ⟨a.date, ?_, ?_, ?_⟩
        · simp [Activity.bump, laterDate, hd, hlt]
        · simp
        · intro t ht
          simp only [List.map_append, List.map_cons, List.map_nil, List.mem_append,
            List.mem_singleton] at ht
          rcases ht with ht | ht
          · exact le_of_lt (lt_of_le_of_lt (hmax t ht) hlt)
          · exact le_of_eq ht
      · refine ⟨d, ?_, ?_, ?_⟩
        · simp [Activity.bump, laterDate, hd, hlt]
        · simp only [List.map_append, List.mem_append]
          exact Or.inl hmem
        · intro t ht
          simp only [List.map_append, List.map_cons, List.map_nil, List.mem_append,
            List.mem_singleton] at ht
          rcases ht with ht | ht
          · exact hmax t ht
          · rw [ht]
            exact not_lt.1 hlt

/-- The record stored under each key summarises the activities folded under that key. -/
theorem summarises_folded (acts : List Activity) (k : String) :
    Summarises ((folded acts).contributionMap.get k) (activitiesOf k acts) := by
  induction acts using List.reverseRecOn with
  | nil => exact rfl
  | append_singleton acts a ih =>
    rw [folded_snoc, get_applyActivity, activitiesOf_snoc]
    by_cases h : k = a.repoKey
    · rw [if_pos h, if_pos h.symm]
      exact summarises_step _ _ a ih
    · rw [if_neg h, if_neg (fun h' => h h'.symm), List.append_nil]
      exact ih

theorem nodup_keys_folded (acts : List Activity) :
    (folded acts).contributionMap.keys.Nodup := by
  induction acts using List.reverseRecOn with
  | nil => exact List.nodup_nil
  | append_singleton acts a ih =>
    rw [folded_snoc, keys_applyActivity]
    by_cases h : a.repoKey ∈ (folded acts).contributionMap.keys
    · rw [if_pos h]
      exact ih
    · rw [if_neg h]
      exact List.Nodup.append ih (List.nodup_singleton _) (by simpa using h)

theorem totalPoints_folded (acts : List Activity) :
    (folded acts).totalPoints = (acts.map (fun a => a.points)).sum := by
  induction acts using List.reverseRecOn with
  | nil => rfl
  | append_singleton acts a ih =>
    rw [folded_snoc, totalPoints_applyActivity, ih]
    simp

/-- An entry of the folded map is the summary of the activities under its key. -/
theorem summarises_of_mem (acts : List Activity) (k : String) (rc : RepoContribution)
    (h : (k, rc) ∈ (folded acts).contributionMap) :
    Summarises (some rc) (activitiesOf k acts) := by
  rw [mem_iff_get _ (nodup_keys_folded acts)] at h
  rw [← h]
  exact summarises_folded acts k

theorem keys_foldl_applyActivity (acts : List Activity) (st : AnalysisState) :
    (acts.foldl applyActivity st).contributionMap.keys =
      st.contributionMap.keys ++
        (firstOccurrences (acts.map (fun a => a.repoKey))).filter
          (fun k => k ∉ st.contributionMap.keys) := by
  induction acts generalizing st with
  | nil => simp [firstOccurrences]
  | cons a acts ih =>
    rw [List.foldl_cons, ih, keys_applyActivity]
    simp only [List.map_cons, firstOccurrences]
    by_cases h : a.repoKey ∈ st.contributionMap.keys
    · rw [if_pos h, List.filter_cons_of_neg (by simpa using h), List.filter_filter]
      congr 1
      apply List.filter_congr
      intro k _
      by_cases hk : k ∈ st.contributionMap.keys
      · simp [hk]
      · have : k ≠ a.repoKey := fun e => hk (e ▸ h)
        simp [hk, this]
    · rw [if_neg h, List.filter_cons_of_pos (by simpa using h), List.filter_filter,
        List.append_assoc, List.singleton_append]
      congr 2
      apply List.filter_congr
      intro k _
      by_cases hk : k ∈ st.contributionMap.keys
      · simp [hk]
      · by_cases hk' : k = a.repoKey <;> simp [hk, hk']

/-- The keys of the folded map are the activity keys in the order of first occurrence. -/
theorem keys_folded (acts : List Activity) :
    (folded acts).contributionMap.keys = firstOccurrences (acts.map (fun a => a.repoKey)) := by
  unfold folded
  rw [keys_foldl_applyActivity]
  simp [ContributionMap.keys]

/-! ## Where activities come from -/

theorem eventActivity_eq_some (toLowerCase : String → String)
    (username : String) (repositories : List Repository)
    (event : Event) (a : Activity) (h : eventActivity toLowerCase username repositories event =
        some a) :
    ∃ repoKey repoOwner,
      truthy (event.repo.bind (fun repo => repo.name)) = some repoKey ∧
      truthy (split repoKey)[0]? = some repoOwner ∧
      toLowerCase repoOwner ≠ toLowerCase username ∧
      a = { repoKey := repoKey
            name := (truthy (split repoKey)[1]?).getD repoKey
            owner := repoOwner
            url := (truthy ((findRepo repositories repoKey).bind (fun r => r.html_url))).getD
              ("https://github.com/" ++ repoKey)
            stargazers_count := starsOf (findRepo repositories repoKey)
            points := (eventPoints event.type (findRepo repositories repoKey)).toNat
            date := event.created_at } := by
  unfold eventActivity at h
  cases hk : truthy (event.repo.bind (fun repo => repo.name)) with
  | none => simp [hk] at h
  | some repoKey =>
    rw [hk] at h
    dsimp only at h
    cases ho : truthy (split repoKey)[0]? with
    | none => simp [ho] at h
    | some repoOwner =>
      rw [ho] at h
      dsimp only at h
      by_cases hl : toLowerCase repoOwner = toLowerCase username
      · simp [hl] at h
      · rw [if_neg hl] at h
        exact ⟨repoKey, repoOwner, rfl, ho, hl, (Option.some.inj h).symm⟩

theorem searchActivity_eq_some (toLowerCase : String → String)
    (username : String) (repositories : List Repository)
    (item : SearchItem) (a : Activity)
    (h : searchActivity toLowerCase username repositories item = .ok (some a)) :
    ∃ repoUrl owner,
      truthy item.repository_url = some repoUrl ∧
      index (split repoUrl) (((split repoUrl).length : Int) - 2) = some owner ∧
      toLowerCase owner ≠ toLowerCase username ∧
      a = { repoKey := owner ++ "/" ++
              template (index (split repoUrl) (((split repoUrl).length : Int) - 1))
            name := template (index (split repoUrl) (((split repoUrl).length : Int) - 1))
            owner := owner
            url := "https://github.com/" ++ (owner ++ "/" ++
              template (index (split repoUrl) (((split repoUrl).length : Int) - 1)))
            stargazers_count := starsOf (findRepo repositories (owner ++ "/" ++
              template (index (split repoUrl) (((split repoUrl).length : Int) - 1))))
            points :=
              if item.pull_request then
                (calculatePoints ⟨"pull_request", findRepo repositories (owner ++ "/" ++
                  template (index (split repoUrl)
                    (((split repoUrl).length : Int) - 1)))⟩).toNat
              else
                (calculatePoints ⟨"issue", findRepo repositories (owner ++ "/" ++
                  template (index (split repoUrl)
                    (((split repoUrl).length : Int) - 1)))⟩).toNat
            date := item.updated_at.getD item.created_at } := by
  unfold searchActivity at h
  cases hk : truthy item.repository_url with
  | none => simp [hk] at h
  | some repoUrl =>
    rw [hk] at h
    dsimp only at h
    cases ho : index (split repoUrl) (((split repoUrl).length : Int) - 2) with
    | none => simp [ho] at h
    | some owner =>
      rw [ho] at h
      dsimp only at h
      by_cases hl : toLowerCase owner = toLowerCase username
      · simp [hl] at h
      · rw [if_neg hl] at h
        refine ⟨repoUrl, owner, rfl, ho, hl, ?_⟩
        injection h with h
        exact (Option.some.inj h).symm

theorem mem_searchActivities (toLowerCase : String → String)
    (username : String) (repositories : List Repository)
    (items : List SearchItem) (acts : List Activity)
    (h : searchActivities toLowerCase username repositories items = .ok acts) (a : Activity)
    (ha : a ∈ acts) :
    ∃ item ∈ items, searchActivity toLowerCase username repositories item = .ok (some a) := by
  induction items generalizing acts with
  | nil =>
    simp only [searchActivities] at h
    injection h with h
    subst h
    simp at ha
  | cons i is ih =>
    unfold searchActivities at h
    cases hi : searchActivity toLowerCase username repositories i with
    | error e => simp [hi] at h
    | ok found =>
      rw [hi] at h
      dsimp only at h
      cases hr : searchActivities toLowerCase username repositories is with
      | error e => simp [hr] at h
      | ok rest =>
        rw [hr] at h
        dsimp only at h
        injection h with h
        subst h
        rcases List.mem_append.1 ha with h1 | h2
        · cases found with
          | none => simp at h1
          | some b =>
            simp only [Option.toList, List.mem_singleton] at h1
            subst h1
            exact ⟨i, List.mem_cons_self _ _, hi⟩
        · obtain ⟨item, hmem, hitem⟩ := ih rest hr h2
          exact ⟨item, List.mem_cons_of_mem _ hmem, hitem⟩

/-- Every folded activity is the activity of one of the events or of one of the search
items. -/
theorem mem_activities (toLowerCase : String → String)
    (username : String) (repositories : List Repository)
    (events : List Event) (items : List SearchItem) (acts : List Activity)
    (h : activities toLowerCase username repositories events items = .ok acts) (a : Activity)
    (ha : a ∈ acts) :
    (∃ event ∈ events, eventActivity toLowerCase username repositories event = some a) ∨
      ∃ item ∈ items, searchActivity toLowerCase username repositories item = .ok (some a) := by
  unfold activities at h
  cases hs : searchActivities toLowerCase username repositories items with
  | error e => simp [hs] at h
  | ok sacts =>
    rw [hs] at h
    dsimp only at h
    injection h with h
    subst h
    rcases List.mem_append.1 ha with h1 | h2
    · left
      simp only [eventActivities, List.mem_filterMap] at h1
      exact h1
    · right
      exact mem_searchActivities toLowerCase username repositories items sacts hs a h2

theorem owner_of_activity (toLowerCase : String → String)
    (username : String) (repositories : List Repository)
    (events : List Event) (items : List SearchItem) (acts : List Activity)
    (h : activities toLowerCase username repositories events items = .ok acts) (a : Activity)
    (ha : a ∈ acts) : toLowerCase a.owner ≠ toLowerCase username := by
  rcases mem_activities toLowerCase username repositories events items acts h a ha with
    ⟨e, _, he⟩ | ⟨i, _, hi⟩
  · obtain ⟨k, o, _, _, hl, rfl⟩ := eventActivity_eq_some toLowerCase username repositories e a he
    exact hl
  · obtain ⟨u, o, _, _, hl, rfl⟩ := searchActivity_eq_some toLowerCase username repositories i a hi
    exact hl

/-! ## From the returned summary back to the loops -/

theorem analyzeFetched_ok (toLowerCase : String → String)
    (username : String) (repositories : List Repository)
    (events : List Event) (items : List SearchItem) (now : Int)
    (summary : ContributionSummary)
    (h : analyzeFetched toLowerCase username repositories events items now = .ok summary) :
    ∃ acts, activities toLowerCase username repositories events items = .ok acts ∧
      aggregate toLowerCase username repositories events items = .ok (folded acts) ∧
      summary = buildSummary (folded acts) now := by
  unfold analyzeFetched at h
  have hagg := aggregate_eq toLowerCase username repositories events items
  cases ha : activities toLowerCase username repositories events items with
  | error e =>
    rw [ha] at hagg
    rw [hagg] at h
    simp at h
  | ok acts =>
    rw [ha] at hagg
    rw [hagg] at h
    dsimp only at h
    injection h with h
    exact ⟨acts, rfl, hagg, h.symm⟩

theorem mem_repositories (st : AnalysisState) (now : Int) (r : RepositorySummary) :
    r ∈ (buildSummary st now).repositories ↔
      ∃ k rc, (k, rc) ∈ st.contributionMap ∧ rc.strip = r := by
  simp only [buildSummary, sortByPoints, List.mem_map, List.mem_insertionSort]
  constructor
  · rintro ⟨rc, ⟨e, he, rfl⟩, rfl⟩
    exact ⟨e.1, e.2, he, rfl⟩
  · rintro ⟨k, rc, he, rfl⟩
    exact ⟨rc, ⟨(k, rc), he, rfl⟩, rfl⟩

theorem analyzeContributions_ok (toLowerCase : String → String)
    (username : String)
    (reposResponse : HttpResult (List Repository)) (eventsResponse : HttpResult (List Event))
    (prResponse issueResponse : HttpResult (List SearchItem)) (now : Int)
    (summary : ContributionSummary)
    (h : analyzeContributions toLowerCase username reposResponse eventsResponse prResponse
        issueResponse
      now = .ok summary) :
    ∃ repositories events, reposResponse = .success repositories ∧
      eventsResponse = .success events ∧
      analyzeFetched toLowerCase username repositories events
        (getUserContributionsViaSearch prResponse issueResponse) now = .ok summary := by
  cases reposResponse with
  | failure s => simp [analyzeContributions, getUserRepositories] at h
  | success repositories =>
    cases eventsResponse with
    | failure s => simp [analyzeContributions, getUserRepositories, getUserEvents] at h
    | success events => exact ⟨repositories, events, rfl, rfl, h⟩

/-- Every record of a returned summary is the stored record of one key of the final map,
and that stored record summarises the activities folded under the key. -/
theorem record_of_summary (toLowerCase : String → String)
    (username : String) (repositories : List Repository)
    (events : List Event) (items : List SearchItem) (now : Int)
    (summary : ContributionSummary)
    (h : analyzeFetched toLowerCase username repositories events items now = .ok summary) :
    ∃ st acts, aggregate toLowerCase username repositories events items = .ok st ∧
      activities toLowerCase username repositories events items = .ok acts ∧
      summary = buildSummary st now ∧
      st.contributionMap.keys.Nodup ∧
      st.contributionMap.keys = firstOccurrences (acts.map (fun a => a.repoKey)) ∧
      st.totalPoints = (acts.map (fun a => a.points)).sum ∧
      ∀ k rc, (k, rc) ∈ st.contributionMap → Summarises (some rc) (activitiesOf k acts) := by
  obtain ⟨acts, hacts, hagg, hsum⟩ := analyzeFetched_ok toLowerCase username repositories events
      items
    now summary h
  exact ⟨folded acts, acts, hagg, hacts, hsum, nodup_keys_folded acts, keys_folded acts,
    totalPoints_folded acts, fun k rc hm => summarises_of_mem acts k rc hm⟩

/-! ## Scoring -/

theorem calculatePoints_commit (repository : Option Repository) :
    calculatePoints ⟨"commit", repository⟩ =
      .int (roundScaled 10 (multiplierTenths (starsOf repository))) := rfl

theorem calculatePoints_pull_request (repository : Option Repository) :
    calculatePoints ⟨"pull_request", repository⟩ =
      .int (roundScaled 25 (multiplierTenths (starsOf repository))) := rfl

theorem calculatePoints_issue (repository : Option Repository) :
    calculatePoints ⟨"issue", repository⟩ =
      .int (roundScaled 15 (multiplierTenths (starsOf repository))) := rfl

theorem calculatePoints_star (repository : Option Repository) :
    calculatePoints ⟨"star", repository⟩ =
      .int (roundScaled 5 (multiplierTenths (starsOf repository))) := rfl

theorem calculatePoints_fork (repository : Option Repository) :
    calculatePoints ⟨"fork", repository⟩ =
      .int (roundScaled 8 (multiplierTenths (starsOf repository))) := rfl

/-- The switch over the event type never yields `NaN`. -/
theorem eventPoints_int (eventType : String) (repoData : Option Repository) :
    eventPoints eventType repoData = .int (eventPoints eventType repoData).toNat := by
  unfold eventPoints
  split_ifs <;> rfl

/-- C1, at a type naming an inherited property: `contributionTypes['constructor']` is the
function `Object`, which is truthy, so the default 5 is not taken and the product is
`NaN`; the result is not the non-negative integer round-half-up(5 * 0.8) = 4. -/
theorem calculatePoints_constructor :
    calculatePoints ⟨"constructor", none⟩ = JSNumber.nan ∧
      roundHalfUp (specBase "constructor" * specMultiplier 0) = 4 := by
  refine ⟨by decide, ?_⟩
  have hb : specBase "constructor" = 5 := by
    simp only [specBase]
    rw [if_neg (by decide), if_neg (by decide), if_neg (by decide), if_neg (by decide),
      if_neg (by decide), if_neg (by decide)]
  have hm : specMultiplier 0 = 4 / 5 := by
    simp [specMultiplier]
  rw [hb, hm, roundHalfUp, Int.floor_eq_iff]
  norm_num

theorem specMultiplier_eq (stars : Nat) :
    specMultiplier stars = (multiplierTenths stars : ℚ) / 10 := by
  unfold specMultiplier multiplierTenths
  split_ifs <;> norm_num

/-- The integer arithmetic of `roundScaled` is round-half-up of the exact product. -/
theorem roundScaled_eq (points stars : Nat) :
    ((roundScaled points (multiplierTenths stars) : Nat) : ℤ) =
      roundHalfUp ((points : ℚ) * specMultiplier stars) := by
  have h : (points : ℚ) * specMultiplier stars + 1 / 2 =
      ((points * multiplierTenths stars + 5 : ℕ) : ℚ) / ((10 : ℕ) : ℚ) := by
    rw [specMultiplier_eq]
    push_cast
    ring
  rw [roundHalfUp, h, Rat.floor_natCast_div_natCast]
  rfl

theorem contributionTypes_of_not_inherited (type : String) (h : type ∉ objectPrototypeKeys) :
    contributionTypes type ≠ .inherited := by
  unfold contributionTypes
  split_ifs <;> simp

/-- Away from the inherited property names, `calculatePoints` is the scoring rule of the
specification: a non-negative integer, round-half-up of base times multiplier. -/
theorem calculatePoints_of_not_inherited (type : String) (repository : Option Repository)
    (h : type ∉ objectPrototypeKeys) :
    ∃ n : Nat, calculatePoints ⟨type, repository⟩ = .int n ∧
      (n : ℤ) = roundHalfUp (specBase type * specMultiplier (starsOf repository)) := by
  unfold calculatePoints contributionTypes specBase
  dsimp only
  split_ifs with h1 h2 h3 h4 h5 h6
  · exact ⟨_, rfl, by simpa using roundScaled_eq 10 (starsOf repository)⟩
  · exact ⟨_, rfl, by simpa using roundScaled_eq 25 (starsOf repository)⟩
  · exact ⟨_, rfl, by simpa using roundScaled_eq 15 (starsOf repository)⟩
  · exact ⟨_, rfl, by simpa using roundScaled_eq 20 (starsOf repository)⟩
  · exact ⟨_, rfl, by simpa using roundScaled_eq 5 (starsOf repository)⟩
  · exact ⟨_, rfl, by simpa using roundScaled_eq 8 (starsOf repository)⟩
  · exact ⟨_, rfl, by simpa using roundScaled_eq 5 (starsOf repository)⟩

/-- A repository with 5 stars passes none of the thresholds of lines 46-48: the multiplier
stays 0.8 and a commit scores 8 (the comments of lines 35-36 describe the 1.0 tier as
"<100 stars"; the code and the specification put it at 10 to 99 stars). -/
theorem calculatePoints_five_stars :
    calculatePoints ⟨"commit", some ⟨"o/r", none, some 5⟩⟩ = .int 8 := by
  decide

/-- The two scores the specification works out: a pull request on a repository without
stars, a commit on one with 5000 stars. -/
theorem calculatePoints_examples :
    calculatePoints ⟨"pull_request", some ⟨"o/r", none, some 0⟩⟩ = .int 20 ∧
      calculatePoints ⟨"commit", some ⟨"o/r", none, some 5000⟩⟩ = .int 15 := by
  decide

/-! ## Records of the summary -/

/-- C2: no record of the repositories sequence returned by `analyzeContributions` has an
owner equal to the queried username when both are compared case-insensitively, that is
through `toLowerCase` as the code compares them, for every username and every outcome of
the fetches.  The lower-casing function is arbitrary, so the statement holds of
`String.prototype.toLowerCase` on every string, ASCII or not. -/
theorem owner_never_queried_user (toLowerCase : String → String)
    (username : String)
    (reposResponse : HttpResult (List Repository)) (eventsResponse : HttpResult (List Event))
    (prResponse issueResponse : HttpResult (List SearchItem)) (now : Int)
    (summary : ContributionSummary)
    (h : analyzeContributions toLowerCase username reposResponse eventsResponse prResponse
        issueResponse
      now = .ok summary) :
    ∀ r ∈ summary.repositories, toLowerCase r.owner ≠ toLowerCase username := by
  obtain ⟨repositories, events, _, _, hf⟩ := analyzeContributions_ok toLowerCase username
      reposResponse
    eventsResponse prResponse issueResponse now summary h
  obtain ⟨st, acts, _, hacts, hsum, _, _, _, hrec⟩ := record_of_summary toLowerCase username
      repositories
    events _ now summary hf
  intro r hr
  rw [hsum, mem_repositories] at hr
  obtain ⟨k, rc, hmem, rfl⟩ := hr
  obtain ⟨⟨first, hhead, _, ho, _, _⟩, _⟩ := hrec k rc hmem
  have hin : first ∈ acts :=
    List.mem_of_mem_filter (List.mem_of_mem_head? hhead)
  have := owner_of_activity toLowerCase username repositories events _ acts hacts first hin
  simpa [RepoContribution.strip, ho] using this

theorem owner_never_queried_user_witness :
    analyzeContributions asciiToLowerCase "octocat" (.success sampleRepositories)
        (.success sampleEvents) (.success samplePullRequests) (.success sampleIssues)
        1000 = .ok sampleSummary ∧
      asciiToLowerCase "rails" ≠ asciiToLowerCase "octocat" ∧
      asciiToLowerCase "vuejs" ≠ asciiToLowerCase "octocat" ∧
      analyzeContributions latin1ToLowerCase "école" (.success ecoleRepositories)
        (.success ecoleEvents) (.success []) (.success []) 1000 = .ok ecoleSummary ∧
      latin1ToLowerCase "rails" ≠ latin1ToLowerCase "école" :=
  ⟨by decide,
    owner_never_queried_user asciiToLowerCase "octocat" (.success sampleRepositories)
      (.success sampleEvents) (.success samplePullRequests) (.success sampleIssues) 1000
      sampleSummary (by decide)
      ⟨"rails", "rails", "https://github.com/rails/rails", 3, 91, some 300⟩ (by decide),
    owner_never_queried_user asciiToLowerCase "octocat" (.success sampleRepositories)
      (.success sampleEvents) (.success samplePullRequests) (.success sampleIssues) 1000
      sampleSummary (by decide)
      ⟨"vue", "vuejs", "https://github.com/vuejs/vue", 2, 14, some 200⟩ (by decide),
    by decide,
    owner_never_queried_user latin1ToLowerCase "école" (.success ecoleRepositories)
      (.success ecoleEvents) (.success []) (.success []) 1000 ecoleSummary (by decide)
      ⟨"rails", "rails", "https://github.com/rails/rails", 1, 8, some 200⟩ (by decide)⟩

/-- C3: in a summary returned by `analyzeContributions`, every record is the record stored
under a key of the final map, and whichever key it is stored under, its `contributions` is
the number of folded (non-skipped) activities, events and search items together, with that
key, and its `points` is the sum of the scores awarded to exactly those activities. -/
theorem contributions_and_points_per_key (toLowerCase : String → String)
    (username : String)
    (repositories : List Repository) (events : List Event)
    (prResponse issueResponse : HttpResult (List SearchItem)) (now : Int)
    (summary : ContributionSummary)
    (h : analyzeContributions toLowerCase username (.success repositories) (.success events)
        prResponse
      issueResponse now = .ok summary) :
    ∃ st acts,
      aggregate toLowerCase username repositories events
        (getUserContributionsViaSearch prResponse issueResponse) = .ok st ∧
      activities toLowerCase username repositories events
        (getUserContributionsViaSearch prResponse issueResponse) = .ok acts ∧
      ∀ r ∈ summary.repositories,
        (∃ e ∈ st.contributionMap, e.2.strip = r) ∧
        ∀ e ∈ st.contributionMap, e.2.strip = r →
          r.contributions = (activitiesOf e.1 acts).length ∧
          r.points = ((activitiesOf e.1 acts).map (fun a => a.points)).sum := by
  obtain ⟨st, acts, hagg, hacts, hsum, _, _, _, hrec⟩ := record_of_summary toLowerCase username
    repositories events _ now summary h
  refine ⟨st, acts, hagg, hacts, ?_⟩
  intro r hr
  rw [hsum, mem_repositories] at hr
  obtain ⟨k, rc, hmem, hstrip⟩ := hr
  refine ⟨⟨(k, rc), hmem, hstrip⟩, ?_⟩
  intro e he hse
  obtain ⟨_, hc, hp, _⟩ := hrec e.1 e.2 he
  rw [← hse]
  exact ⟨hc, hp⟩

theorem contributions_and_points_per_key_witness :
    ∃ st acts,
      aggregate asciiToLowerCase "octocat" sampleRepositories sampleEvents
        (getUserContributionsViaSearch (.success samplePullRequests)
          (.success sampleIssues)) = .ok st ∧
      activities asciiToLowerCase "octocat" sampleRepositories sampleEvents
        (getUserContributionsViaSearch (.success samplePullRequests)
          (.success sampleIssues)) = .ok acts ∧
      ∀ r ∈ sampleSummary.repositories,
        (∃ e ∈ st.contributionMap, e.2.strip = r) ∧
        ∀ e ∈ st.contributionMap, e.2.strip = r →
          r.contributions = (activitiesOf e.1 acts).length ∧
          r.points = ((activitiesOf e.1 acts).map (fun a => a.points)).sum :=
  contributions_and_points_per_key asciiToLowerCase "octocat" sampleRepositories sampleEvents
    (.success samplePullRequests) (.success sampleIssues) 1000 sampleSummary (by decide)

/-- C4: in a summary returned by `analyzeContributions`, the `lastContribution` of every
record is the greatest timestamp among the activities folded under the key the record is
stored under (an event's `created_at`; a search item's `updated_at`, or its `created_at`
when `updated_at` is absent): it is the timestamp of one of them and none of them is
later.  The statement holds for every event list and item list, hence for every arrival
order. -/
theorem lastContribution_is_latest (toLowerCase : String → String)
    (username : String)
    (repositories : List Repository) (events : List Event)
    (prResponse issueResponse : HttpResult (List SearchItem)) (now : Int)
    (summary : ContributionSummary)
    (h : analyzeContributions toLowerCase username (.success repositories) (.success events)
        prResponse
      issueResponse now = .ok summary) :
    ∃ st acts,
      aggregate toLowerCase username repositories events
        (getUserContributionsViaSearch prResponse issueResponse) = .ok st ∧
      activities toLowerCase username repositories events
        (getUserContributionsViaSearch prResponse issueResponse) = .ok acts ∧
      ∀ r ∈ summary.repositories,
        (∃ e ∈ st.contributionMap, e.2.strip = r) ∧
        ∀ e ∈ st.contributionMap, e.2.strip = r →
          ∃ d, r.lastContribution = some d ∧
            d ∈ (activitiesOf e.1 acts).map (fun a => a.date) ∧
            ∀ t ∈ (activitiesOf e.1 acts).map (fun a => a.date), t ≤ d := by
  obtain ⟨st, acts, hagg, hacts, hsum, _, _, _, hrec⟩ := record_of_summary toLowerCase username
    repositories events _ now summary h
  refine ⟨st, acts, hagg, hacts, ?_⟩
  intro r hr
  rw [hsum, mem_repositories] at hr
  obtain ⟨k, rc, hmem, hstrip⟩ := hr
  refine ⟨⟨(k, rc), hmem, hstrip⟩, ?_⟩
  intro e he hse
  obtain ⟨_, _, _, hd⟩ := hrec e.1 e.2 he
  rw [← hse]
  exact hd

theorem lastContribution_is_latest_witness :
    ∃ st acts,
      aggregate asciiToLowerCase "octocat" sampleRepositories sampleEvents
        (getUserContributionsViaSearch (.success samplePullRequests)
          (.success sampleIssues)) = .ok st ∧
      activities asciiToLowerCase "octocat" sampleRepositories sampleEvents
        (getUserContributionsViaSearch (.success samplePullRequests)
          (.success sampleIssues)) = .ok acts ∧
      ∀ r ∈ sampleSummary.repositories,
        (∃ e ∈ st.contributionMap, e.2.strip = r) ∧
        ∀ e ∈ st.contributionMap, e.2.strip = r →
          ∃ d, r.lastContribution = some d ∧
            d ∈ (activitiesOf e.1 acts).map (fun a => a.date) ∧
            ∀ t ∈ (activitiesOf e.1 acts).map (fun a => a.date), t ≤ d :=
  lastContribution_is_latest asciiToLowerCase "octocat" sampleRepositories sampleEvents
    (.success samplePullRequests) (.success sampleIssues) 1000 sampleSummary (by decide)

/-! ## The order of the summary -/

theorem sortByPoints_perm (records : List RepoContribution) :
    (sortByPoints records).Perm records :=
  List.perm_insertionSort byPoints records

theorem sortByPoints_sorted (records : List RepoContribution) :
    (sortByPoints records).Pairwise (fun a b => b.points ≤ a.points) :=
  List.sorted_insertionSort byPoints records

/-- The sort keeps records of equal points in their original order. -/
theorem sortByPoints_stable (records : List RepoContribution) (p : Nat) :
    (sortByPoints records).filter (fun r => r.points = p) =
      records.filter (fun r => r.points = p) := by
  have hpair : (records.filter (fun r => r.points = p)).Pairwise byPoints := by
    rw [List.pairwise_iff_forall_sublist]
    intro a b hab
    have ha : a ∈ records.filter (fun r => r.points = p) := hab.subset (by simp)
    have hb : b ∈ records.filter (fun r => r.points = p) := hab.subset (by simp)
    simp only [List.mem_filter, decide_eq_true_eq] at ha hb
    show b.points ≤ a.points
    rw [ha.2, hb.2]
  have hsub : List.Sublist (records.filter (fun r => r.points = p)) (sortByPoints records) :=
    List.sublist_insertionSort hpair (List.filter_sublist records)
  have hsub' := hsub.filter (fun r => r.points = p)
  rw [List.filter_filter] at hsub'
  simp only [Bool.and_self] at hsub'
  have hlen : ((sortByPoints records).filter (fun r => r.points = p)).length =
      (records.filter (fun r => r.points = p)).length :=
    ((sortByPoints_perm records).filter _).length_eq
  exact (hsub'.eq_of_length hlen.symm).symm

/-- C5: the repositories sequence returned by `analyzeContributions` is the stable
descending sort by points of the records of the aggregation map: the map holds its keys in
the order they were first encountered, the sequence is a permutation of the map's records,
every record has at least the points of every record after it, and the records of any one
points value appear in the map's order.  Four records with points 10, 30, 30, 5 come out
as the two 30s in their original order, then the 10, then the 5. -/
theorem repositories_stable_descending (toLowerCase : String → String)
    (username : String)
    (repositories : List Repository) (events : List Event)
    (prResponse issueResponse : HttpResult (List SearchItem)) (now : Int)
    (summary : ContributionSummary)
    (h : analyzeContributions toLowerCase username (.success repositories) (.success events)
        prResponse
      issueResponse now = .ok summary) :
    ∃ st acts,
      aggregate toLowerCase username repositories events
        (getUserContributionsViaSearch prResponse issueResponse) = .ok st ∧
      activities toLowerCase username repositories events
        (getUserContributionsViaSearch prResponse issueResponse) = .ok acts ∧
      st.contributionMap.keys = firstOccurrences (acts.map (fun a => a.repoKey)) ∧
      summary.repositories.Perm (st.contributionMap.map (fun e => e.2.strip)) ∧
      summary.repositories.Pairwise (fun a b => b.points ≤ a.points) ∧
      (∀ p, summary.repositories.filter (fun r => r.points = p) =
        (st.contributionMap.map (fun e => e.2.strip)).filter (fun r => r.points = p)) ∧
      ∀ a b c d : RepoContribution, a.points = 10 → b.points = 30 → c.points = 30 →
        d.points = 5 → sortByPoints [a, b, c, d] = [b, c, a, d] := by
  obtain ⟨st, acts, hagg, hacts, hsum, _, hkeys, _, _⟩ := record_of_summary toLowerCase username
    repositories events _ now summary h
  have hmap : st.contributionMap.map (fun e => e.2.strip) =
      (st.contributionMap.map (fun e => e.2)).map RepoContribution.strip := by
    rw [List.map_map]
    rfl
  subst hsum
  refine ⟨st, acts, hagg, hacts, hkeys, ?_, ?_, ?_, ?_⟩ <;> try rw [hmap]
  · exact (sortByPoints_perm _).map _
  · simp only [buildSummary]
    rw [List.pairwise_map]
    exact sortByPoints_sorted _
  · intro p
    simp only [buildSummary]
    rw [List.filter_map, List.filter_map]
    congr 1
    exact sortByPoints_stable _ p
  · intro a b c d ha hb hc hd
    simp [sortByPoints, List.insertionSort, List.orderedInsert, byPoints, ha, hb, hc, hd]

theorem repositories_stable_descending_witness :
    ∃ st acts,
      aggregate asciiToLowerCase "octocat" rankedRepositories rankedEvents
        (getUserContributionsViaSearch (.success []) (.success [])) = .ok st ∧
      activities asciiToLowerCase "octocat" rankedRepositories rankedEvents
        (getUserContributionsViaSearch (.success []) (.success [])) = .ok acts ∧
      st.contributionMap.keys = firstOccurrences (acts.map (fun a => a.repoKey)) ∧
      rankedSummary.repositories.Perm (st.contributionMap.map (fun e => e.2.strip)) ∧
      rankedSummary.repositories.Pairwise (fun a b => b.points ≤ a.points) ∧
      (∀ p, rankedSummary.repositories.filter (fun r => r.points = p) =
        (st.contributionMap.map (fun e => e.2.strip)).filter (fun r => r.points = p)) ∧
      ∀ a b c d : RepoContribution, a.points = 10 → b.points = 30 → c.points = 30 →
        d.points = 5 → sortByPoints [a, b, c, d] = [b, c, a, d] :=
  repositories_stable_descending asciiToLowerCase "octocat" rankedRepositories rankedEvents
      (.success [])
    (.success []) 9 rankedSummary (by decide)

/-! ## Skipped and scored activities -/

theorem truthy_eq_some (v : Option String) (s : String) (h : truthy v = some s) :
    v = some s ∧ s ≠ "" := by
  cases v with
  | none => simp [truthy] at h
  | some t =>
    by_cases ht : t = ""
    · simp [truthy, ht] at h
    · simp only [truthy, ht, if_false, Option.some.injEq] at h
      subst h
      exact ⟨rfl, ht⟩

theorem truthy_some (s : String) (h : s ≠ "") : truthy (some s) = some s := by
  simp [truthy, h]

/-- An event on a repository of the queried user is not folded. -/
theorem eventActivity_own (toLowerCase : String → String)
    (username : String) (repositories : List Repository)
    (event : Event) (owner : String) (ho : event.ownerSegment = some owner)
    (hl : toLowerCase owner = toLowerCase username) :
    eventActivity toLowerCase username repositories event = none := by
  unfold eventActivity
  cases hk : truthy (event.repo.bind (fun repo => repo.name)) with
  | none => rfl
  | some repoKey =>
    dsimp only
    have hname := (truthy_eq_some _ _ hk).1
    rw [Event.ownerSegment, hname, Option.some_bind] at ho
    cases hown : truthy (split repoKey)[0]? with
    | none => rfl
    | some repoOwner =>
      dsimp only
      have := (truthy_eq_some _ _ hown).1
      rw [ho] at this
      rw [← Option.some.inj this, if_pos hl]

/-- C6: adding, at any position of the event list, an event whose repository owner segment
equals the queried username up to letter case (the two have the same `toLowerCase`, for
whatever lower-casing function the engine provides) leaves the result of
`analyzeContributions` unchanged, whatever the other inputs are: the same total, the same
repositories sequence (or the same failure). -/
theorem own_event_changes_nothing (toLowerCase : String → String)
    (username : String)
    (reposResponse : HttpResult (List Repository))
    (earlier later : List Event) (event : Event)
    (prResponse issueResponse : HttpResult (List SearchItem)) (now : Int)
    (h : ∃ owner, event.ownerSegment = some owner ∧
      toLowerCase owner = toLowerCase username) :
    analyzeContributions toLowerCase username reposResponse (.success (earlier ++ event :: later))
        prResponse issueResponse now =
      analyzeContributions toLowerCase username reposResponse (.success (earlier ++ later))
        prResponse issueResponse now := by
  obtain ⟨owner, ho, hl⟩ := h
  cases reposResponse with
  | failure s => rfl
  | success repositories =>
    have hskip : ∀ st, processEvent toLowerCase username repositories st event = st := by
      intro st
      rw [processEvent_eq, eventActivity_own toLowerCase username repositories event owner ho hl]
    simp only [analyzeContributions, getUserRepositories, getUserEvents, analyzeFetched,
      aggregate, List.foldl_append, List.foldl_cons, hskip]

theorem own_event_changes_nothing_witness :
    analyzeContributions asciiToLowerCase "octocat" (.success sampleRepositories)
        (.success ([⟨"PushEvent", some ⟨some "rails/rails"⟩, 100⟩] ++
          ⟨"WatchEvent", some ⟨some "Octocat/Hello-World"⟩, 400⟩ ::
          [⟨"IssueCommentEvent", some ⟨some "vuejs/vue"⟩, 200⟩]))
        (.success samplePullRequests) (.success sampleIssues) 1000 =
      analyzeContributions asciiToLowerCase "octocat" (.success sampleRepositories)
        (.success ([⟨"PushEvent", some ⟨some "rails/rails"⟩, 100⟩] ++
          [⟨"IssueCommentEvent", some ⟨some "vuejs/vue"⟩, 200⟩]))
        (.success samplePullRequests) (.success sampleIssues) 1000 ∧
    analyzeContributions latin1ToLowerCase "école" (.success sampleRepositories)
        (.success ([⟨"PushEvent", some ⟨some "rails/rails"⟩, 100⟩] ++
          ⟨"PushEvent", some ⟨some "ÉCOLE/repo"⟩, 400⟩ :: []))
        (.success samplePullRequests) (.success sampleIssues) 1000 =
      analyzeContributions latin1ToLowerCase "école" (.success sampleRepositories)
        (.success ([⟨"PushEvent", some ⟨some "rails/rails"⟩, 100⟩] ++ []))
        (.success samplePullRequests) (.success sampleIssues) 1000 :=
  ⟨own_event_changes_nothing asciiToLowerCase "octocat" (.success sampleRepositories)
      [⟨"PushEvent", some ⟨some "rails/rails"⟩, 100⟩]
      [⟨"IssueCommentEvent", some ⟨some "vuejs/vue"⟩, 200⟩]
      ⟨"WatchEvent", some ⟨some "Octocat/Hello-World"⟩, 400⟩
      (.success samplePullRequests) (.success sampleIssues) 1000
      ⟨"Octocat", by decide, by decide⟩,
    own_event_changes_nothing latin1ToLowerCase "école" (.success sampleRepositories)
      [⟨"PushEvent", some ⟨some "rails/rails"⟩, 100⟩] []
      ⟨"PushEvent", some ⟨some "ÉCOLE/repo"⟩, 400⟩
      (.success samplePullRequests) (.success sampleIssues) 1000
      ⟨"ÉCOLE", by decide, by decide⟩⟩

theorem points_after_bump (st : AnalysisState) (a : Activity) :
    ∃ rc, (applyActivity st a).contributionMap.get a.repoKey = some rc ∧
      rc.points =
        ((st.contributionMap.get a.repoKey).map (fun old => old.points)).getD 0 + a.points := by
  refine ⟨_, by rw [get_applyActivity, if_pos rfl], ?_⟩
  cases st.contributionMap.get a.repoKey <;> simp [Activity.bump, Activity.fresh]

/-- C7: an event that passes the guards (it names a repository, the owner segment of the
name is not empty and is not the queried user) adds the same number of points to the
record under its key and to `totalPoints`; that number is `calculatePoints` of type
`commit` for `PushEvent`, `pull_request` for `PullRequestEvent`, `issue` for `IssuesEvent`,
`star` for `WatchEvent` and `fork` for `ForkEvent`, each on the listing entry found for the
key, and it is 2 for every other event type. -/
theorem event_points_by_type (toLowerCase : String → String)
    (username : String) (repositories : List Repository)
    (st : AnalysisState) (event : Event) (repoKey repoOwner : String)
    (hrepo : event.repo.bind (fun repo => repo.name) = some repoKey) (hkey : repoKey ≠ "")
    (howner : (split repoKey)[0]? = some repoOwner) (hne : repoOwner ≠ "")
    (hother : toLowerCase repoOwner ≠ toLowerCase username) :
    ∃ points rc,
      (processEvent toLowerCase username repositories st event).totalPoints = st.totalPoints +
          points ∧
      (processEvent toLowerCase username repositories st event).contributionMap.get repoKey = some
          rc ∧
      rc.points =
        ((st.contributionMap.get repoKey).map (fun old => old.points)).getD 0 + points ∧
      (event.type = "PushEvent" →
        calculatePoints ⟨"commit", findRepo repositories repoKey⟩ = .int points) ∧
      (event.type = "PullRequestEvent" →
        calculatePoints ⟨"pull_request", findRepo repositories repoKey⟩ = .int points) ∧
      (event.type = "IssuesEvent" →
        calculatePoints ⟨"issue", findRepo repositories repoKey⟩ = .int points) ∧
      (event.type = "WatchEvent" →
        calculatePoints ⟨"star", findRepo repositories repoKey⟩ = .int points) ∧
      (event.type = "ForkEvent" →
        calculatePoints ⟨"fork", findRepo repositories repoKey⟩ = .int points) ∧
      (event.type ∉ ["PushEvent", "PullRequestEvent", "IssuesEvent", "WatchEvent",
        "ForkEvent"] → points = 2) := by
  have hact : eventActivity toLowerCase username repositories event = some
      { repoKey := repoKey
        name := (truthy (split repoKey)[1]?).getD repoKey
        owner := repoOwner
        url := (truthy ((findRepo repositories repoKey).bind (fun r => r.html_url))).getD
          ("https://github.com/" ++ repoKey)
        stargazers_count := starsOf (findRepo repositories repoKey)
        points := (eventPoints event.type (findRepo repositories repoKey)).toNat
        date := event.created_at } := by
    unfold eventActivity
    rw [hrepo, truthy_some repoKey hkey]
    dsimp only
    rw [howner, truthy_some repoOwner hne]
    dsimp only
    rw [if_neg hother]
  rw [processEvent_eq, hact]
  dsimp only
  obtain ⟨rc, hget, hpts⟩ := points_after_bump st
    { repoKey := repoKey
      name := (truthy (split repoKey)[1]?).getD repoKey
      owner := repoOwner
      url := (truthy ((findRepo repositories repoKey).bind (fun r => r.html_url))).getD
        ("https://github.com/" ++ repoKey)
      stargazers_count := starsOf (findRepo repositories repoKey)
      points := (eventPoints event.type (findRepo repositories repoKey)).toNat
      date := event.created_at }
  refine ⟨(eventPoints event.type (findRepo repositories repoKey)).toNat, rc, rfl, hget,
    hpts, ?_, ?_, ?_, ?_, ?_, ?_⟩
  · intro ht
    rw [ht]
    rfl
  · intro ht
    rw [ht]
    rfl
  · intro ht
    rw [ht]
    rfl
  · intro ht
    rw [ht]
    rfl
  · intro ht
    rw [ht]
    rfl
  · intro ht
    simp only [List.mem_cons, List.mem_singleton, List.not_mem_nil, or_false, not_or] at ht
    obtain ⟨h1, h2, h3, h4, h5⟩ := ht
    simp [eventPoints, h1, h2, h3, h4, h5, JSNumber.toNat]

theorem event_points_by_type_witness :
    ∃ points rc,
      (processEvent asciiToLowerCase "octocat" sampleRepositories ⟨[], 0⟩
        ⟨"PushEvent", some ⟨some "rails/rails"⟩, 100⟩).totalPoints = 0 + points ∧
      (processEvent asciiToLowerCase "octocat" sampleRepositories ⟨[], 0⟩
        ⟨"PushEvent", some ⟨some "rails/rails"⟩, 100⟩).contributionMap.get "rails/rails" =
          some rc ∧
      rc.points =
        ((ContributionMap.get [] "rails/rails").map (fun old => old.points)).getD 0 + points ∧
      ("PushEvent" = "PushEvent" →
        calculatePoints ⟨"commit", findRepo sampleRepositories "rails/rails"⟩ = .int points) ∧
      ("PushEvent" = "PullRequestEvent" →
        calculatePoints ⟨"pull_request", findRepo sampleRepositories "rails/rails"⟩ =
          .int points) ∧
      ("PushEvent" = "IssuesEvent" →
        calculatePoints ⟨"issue", findRepo sampleRepositories "rails/rails"⟩ = .int points) ∧
      ("PushEvent" = "WatchEvent" →
        calculatePoints ⟨"star", findRepo sampleRepositories "rails/rails"⟩ = .int points) ∧
      ("PushEvent" = "ForkEvent" →
        calculatePoints ⟨"fork", findRepo sampleRepositories "rails/rails"⟩ = .int points) ∧
      ("PushEvent" ∉ ["PushEvent", "PullRequestEvent", "IssuesEvent", "WatchEvent",
        "ForkEvent"] → points = 2) :=
  event_points_by_type asciiToLowerCase "octocat" sampleRepositories ⟨[], 0⟩
    ⟨"PushEvent", some ⟨some "rails/rails"⟩, 100⟩ "rails/rails" "rails" (by decide)
    (by decide) (by decide) (by decide) (by decide)

/-- C8: a search item that passes the guards (it has a repository url whose last two
segments are `owner` and `repoName`, and `owner` is not the queried user) adds the same
number of points to the record under `owner/repoName` and to `totalPoints`; that number is
`calculatePoints` of type `pull_request` when the item carries the `pull_request` marker
and of type `issue` when it does not, on the listing entry found for the key. -/
theorem search_item_points_by_marker (toLowerCase : String → String)
    (username : String) (repositories : List Repository)
    (st : AnalysisState) (item : SearchItem) (repoUrl owner repoName : String)
    (hurl : item.repository_url = some repoUrl) (hne : repoUrl ≠ "")
    (howner : index (split repoUrl) (((split repoUrl).length : Int) - 2) = some owner)
    (hname : index (split repoUrl) (((split repoUrl).length : Int) - 1) = some repoName)
    (hother : toLowerCase owner ≠ toLowerCase username) :
    ∃ points rc st',
      processSearchItem toLowerCase username repositories st item = .ok st' ∧
      st'.totalPoints = st.totalPoints + points ∧
      st'.contributionMap.get (owner ++ "/" ++ repoName) = some rc ∧
      rc.points =
        ((st.contributionMap.get (owner ++ "/" ++ repoName)).map
          (fun old => old.points)).getD 0 + points ∧
      (item.pull_request = true →
        calculatePoints ⟨"pull_request", findRepo repositories (owner ++ "/" ++ repoName)⟩ =
          .int points) ∧
      (item.pull_request = false →
        calculatePoints ⟨"issue", findRepo repositories (owner ++ "/" ++ repoName)⟩ =
          .int points) := by
  have hact : searchActivity toLowerCase username repositories item = .ok (some
      { repoKey := owner ++ "/" ++ repoName
        name := repoName
        owner := owner
        url := "https://github.com/" ++ (owner ++ "/" ++ repoName)
        stargazers_count := starsOf (findRepo repositories (owner ++ "/" ++ repoName))
        points :=
          if item.pull_request then
            (calculatePoints
              ⟨"pull_request", findRepo repositories (owner ++ "/" ++ repoName)⟩).toNat
          else
            (calculatePoints ⟨"issue", findRepo repositories (owner ++ "/" ++ repoName)⟩).toNat
        date := item.updated_at.getD item.created_at }) := by
    unfold searchActivity
    rw [hurl, truthy_some repoUrl hne]
    dsimp only
    rw [howner, hname]
    dsimp only
    rw [if_neg hother]
    rfl
  rw [processSearchItem_eq, hact]
  dsimp only
  obtain ⟨rc, hget, hpts⟩ := points_after_bump st
    { repoKey := owner ++ "/" ++ repoName
      name := repoName
      owner := owner
      url := "https://github.com/" ++ (owner ++ "/" ++ repoName)
      stargazers_count := starsOf (findRepo repositories (owner ++ "/" ++ repoName))
      points :=
        if item.pull_request then
          (calculatePoints
            ⟨"pull_request", findRepo repositories (owner ++ "/" ++ repoName)⟩).toNat
        else
          (calculatePoints ⟨"issue", findRepo repositories (owner ++ "/" ++ repoName)⟩).toNat
      date := item.updated_at.getD item.created_at }
  refine ⟨_, rc, _, rfl, rfl, hget, hpts, ?_, ?_⟩
  · intro hpr
    rw [hpr]
    rfl
  · intro hpr
    rw [hpr]
    rfl

theorem search_item_points_by_marker_witness :
    ∃ points rc st',
      processSearchItem asciiToLowerCase "octocat" sampleRepositories ⟨[], 0⟩
        ⟨some "https://api.github.com/repos/rails/rails", true, some 250, 50⟩ = .ok st' ∧
      st'.totalPoints = 0 + points ∧
      st'.contributionMap.get ("rails" ++ "/" ++ "rails") = some rc ∧
      rc.points =
        ((ContributionMap.get [] ("rails" ++ "/" ++ "rails")).map
          (fun old => old.points)).getD 0 + points ∧
      (true = true →
        calculatePoints
          ⟨"pull_request", findRepo sampleRepositories ("rails" ++ "/" ++ "rails")⟩ =
            .int points) ∧
      (true = false →
        calculatePoints ⟨"issue", findRepo sampleRepositories ("rails" ++ "/" ++ "rails")⟩ =
          .int points) :=
  search_item_points_by_marker asciiToLowerCase "octocat" sampleRepositories ⟨[], 0⟩
    ⟨some "https://api.github.com/repos/rails/rails", true, some 250, 50⟩
    "https://api.github.com/repos/rails/rails" "rails" "rails" rfl (by decide) (by decide)
    (by decide) (by decide)

/-! ## Failure of the run -/

theorem splitChars_ne_nil (sep : Char) (cs : List Char) : splitChars sep cs ≠ [] := by
  cases cs with
  | nil => simp [splitChars]
  | cons c cs =>
    unfold splitChars
    split_ifs
    · simp
    · cases splitChars sep cs <;> simp

theorem split_ne_nil (s : String) : split s ≠ [] := by
  unfold split
  intro h
  exact splitChars_ne_nil '/' s.data (List.map_eq_nil_iff.1 h)

/-- The last segment of a url always exists, so `repoName` is a string. -/
theorem index_last_ne_none (s : String) :
    index (split s) (((split s).length : Int) - 1) ≠ none := by
  have hpos : 0 < (split s).length := List.length_pos.2 (split_ne_nil s)
  unfold index
  rw [if_neg (by omega)]
  intro h
  rw [List.getElem?_eq_none_iff] at h
  omega

/-- A rejected search request gives the result of a search without items. -/
theorem search_failure_absorbed (toLowerCase : String → String)
    (username : String)
    (reposResponse : HttpResult (List Repository)) (eventsResponse : HttpResult (List Event))
    (prResponse issueResponse : HttpResult (List SearchItem)) (status : Option Nat)
    (now : Int) :
    analyzeContributions toLowerCase username reposResponse eventsResponse (.failure status)
        issueResponse now =
      analyzeContributions toLowerCase username reposResponse eventsResponse (.success [])
        (.success []) now ∧
    analyzeContributions toLowerCase username reposResponse eventsResponse prResponse
        (.failure status) now =
      analyzeContributions toLowerCase username reposResponse eventsResponse (.success [])
        (.success []) now := by
  constructor
  · cases issueResponse <;> rfl
  · cases prResponse <;> rfl

/-- A rejected mandatory fetch fails the run. -/
theorem mandatory_failure_fails (toLowerCase : String → String)
    (username : String)
    (reposResponse : HttpResult (List Repository)) (eventsResponse : HttpResult (List Event))
    (prResponse issueResponse : HttpResult (List SearchItem)) (status : Option Nat)
    (now : Int) :
    analyzeContributions toLowerCase username (.failure status) eventsResponse prResponse
        issueResponse
        now = .error "Failed to analyze contributions" ∧
    analyzeContributions toLowerCase username reposResponse (.failure status) prResponse
        issueResponse
        now = .error "Failed to analyze contributions" := by
  constructor
  · rfl
  · cases reposResponse <;> rfl


/-- C9, at a search item whose repository url has no `/`: both mandatory fetches succeed
(with empty lists) and the search fetch succeeds too, yet `analyzeContributions` fails with
the aggregation error, because `repoOwner` is `undefined` and `repoOwner.toLowerCase()`
throws inside the `try`. -/
theorem analyzeContributions_fails_on_slashless_url :
    analyzeContributions asciiToLowerCase "octocat" (.success []) (.success [])
        (.success [⟨some "rails", true, some 250, 50⟩]) (.success []) 1000 =
      .error "Failed to analyze contributions" := by
  decide

/-! ## Keys and (owner, name) pairs -/

theorem splitChars_singleton (sep : Char) (cs b : List Char)
    (h : splitChars sep cs = [b]) : cs = b := by
  induction cs generalizing b with
  | nil =>
    simp only [splitChars, List.cons.injEq, and_true] at h
    exact h
  | cons c cs ih =>
    unfold splitChars at h
    split_ifs at h with hc
    · simp only [List.cons.injEq] at h
      exact absurd h.2 (splitChars_ne_nil sep cs)
    · cases hs : splitChars sep cs with
      | nil => exact absurd hs (splitChars_ne_nil sep cs)
      | cons seg rest =>
        rw [hs] at h
        simp only [List.cons.injEq] at h
        obtain ⟨hb, hrest⟩ := h
        subst hrest
        rw [ih seg hs, hb]

/-- A character list that splits into two segments is the first, the separator, the
second. -/
theorem splitChars_pair (sep : Char) (cs a b : List Char)
    (h : splitChars sep cs = [a, b]) : cs = a ++ sep :: b := by
  induction cs generalizing a with
  | nil => simp [splitChars] at h
  | cons c cs ih =>
    unfold splitChars at h
    split_ifs at h with hc
    · simp only [List.cons.injEq] at h
      obtain ⟨ha, hb⟩ := h
      rw [← ha, hc, splitChars_singleton sep cs b hb]
      rfl
    · cases hs : splitChars sep cs with
      | nil => exact absurd hs (splitChars_ne_nil sep cs)
      | cons seg rest =>
        rw [hs] at h
        simp only [List.cons.injEq] at h
        obtain ⟨ha, hrest⟩ := h
        subst hrest
        rw [ih seg hs, ← ha]
        rfl

theorem split_pair (repoKey owner name : String) (h : split repoKey = [owner, name]) :
    repoKey = owner ++ "/" ++ name := by
  unfold split at h
  have hd : splitChars '/' repoKey.data = [owner.data, name.data] := by
    have := congrArg (List.map String.data) h
    simpa [List.map_map, Function.comp_def] using this
  apply String.ext
  rw [splitChars_pair '/' repoKey.data owner.data name.data hd]
  simp [String.data_append]

/-- The key of a folded event with an `owner/reponame` name is its owner, a `/`, its
name. -/
theorem eventActivity_key (toLowerCase : String → String)
    (username : String) (repositories : List Repository)
    (event : Event) (a : Activity) (h : eventActivity toLowerCase username repositories event =
        some a)
    (hwf : OwnerSlashName a.repoKey) : a.repoKey = a.owner ++ "/" ++ a.name := by
  obtain ⟨k, o, _, ho, _, rfl⟩ := eventActivity_eq_some toLowerCase username repositories event a h
  obtain ⟨hlen, hsnd⟩ := hwf
  dsimp only at hlen hsnd ⊢
  have ho' := (truthy_eq_some _ _ ho).1
  cases hsplit : split k with
  | nil => simp [hsplit] at hlen
  | cons x rest =>
    cases rest with
    | nil => simp [hsplit] at hlen
    | cons y rest' =>
      cases rest' with
      | cons z zs => simp [hsplit] at hlen
      | nil =>
        rw [hsplit] at ho' hsnd
        simp only [List.getElem?_cons_zero, Option.some.injEq] at ho'
        simp only [List.getElem?_cons_succ, List.getElem?_cons_zero, ne_eq,
          Option.some.injEq] at hsnd
        subst ho'
        have hy : truthy (some y) = some y := truthy_some y hsnd
        simp only [List.getElem?_cons_succ, List.getElem?_cons_zero, hy, Option.getD_some]
        exact split_pair k x y hsplit

theorem searchActivity_key (toLowerCase : String → String)
    (username : String) (repositories : List Repository)
    (item : SearchItem) (a : Activity)
    (h : searchActivity toLowerCase username repositories item = .ok (some a)) :
    a.repoKey = a.owner ++ "/" ++ a.name := by
  obtain ⟨u, o, _, _, _, rfl⟩ := searchActivity_eq_some toLowerCase username repositories item a h
  rfl

theorem mem_eventActivities_of_mem (toLowerCase : String → String)
    (username : String) (repositories : List Repository)
    (events : List Event) (event : Event) (a : Activity) (he : event ∈ events)
    (h : eventActivity toLowerCase username repositories event = some a) :
    a ∈ eventActivities toLowerCase username repositories events := by
  simp only [eventActivities, List.mem_filterMap]
  exact ⟨event, he, h⟩

/-- C10, as stated, fails: two events named `rails/rails` and `rails/rails/extra` are
stored under two keys, and both records have owner `rails` and name `rails`. -/
theorem same_owner_name_under_two_keys :
    ∃ summary,
      analyzeContributions asciiToLowerCase "octocat" (.success []) (.success overlongEvents)
          (.success [])
        (.success []) 1000 = .ok summary ∧
      ¬ (summary.repositories.map (fun r => (r.owner, r.name))).Nodup :=
  ⟨{ totalPoints := 16
     repositories :=
       [⟨"rails", "rails", "https://github.com/rails/rails", 1, 8, some 100⟩,
        ⟨"rails", "rails", "https://github.com/rails/rails/extra", 1, 8, some 200⟩]
     lastUpdated := 1000 }, by decide, by decide⟩

/-- C10, amended: in a summary returned by `analyzeContributions` there is one record per
key of the aggregation map and the keys are pairwise distinct; and when every folded
event's repository name has the form `owner/reponame` (two segments, the second not
empty), the (owner, name) pairs of the records are pairwise distinct. -/
theorem one_record_per_key (toLowerCase : String → String)
    (username : String)
    (repositories : List Repository) (events : List Event)
    (prResponse issueResponse : HttpResult (List SearchItem)) (now : Int)
    (summary : ContributionSummary)
    (h : analyzeContributions toLowerCase username (.success repositories) (.success events)
        prResponse
      issueResponse now = .ok summary) :
    (∃ st,
      aggregate toLowerCase username repositories events
        (getUserContributionsViaSearch prResponse issueResponse) = .ok st ∧
      st.contributionMap.keys.Nodup ∧
      summary.repositories.Perm (st.contributionMap.map (fun e => e.2.strip))) ∧
    ((∀ a ∈ eventActivities toLowerCase username repositories events, OwnerSlashName a.repoKey) →
      (summary.repositories.map (fun r => (r.owner, r.name))).Nodup) := by
  obtain ⟨st, acts, hagg, hacts, hsum, hnodup, _, _, hrec⟩ := record_of_summary toLowerCase username
    repositories events _ now summary h
  have hmap : st.contributionMap.map (fun e => e.2.strip) =
      (st.contributionMap.map (fun e => e.2)).map RepoContribution.strip := by
    rw [List.map_map]
    rfl
  have hperm : summary.repositories.Perm (st.contributionMap.map (fun e => e.2.strip)) := by
    rw [hsum, hmap]
    exact (sortByPoints_perm _).map _
  refine ⟨⟨st, hagg, hnodup, hperm⟩, ?_⟩
  intro hwf
  have hkey : ∀ a ∈ acts, a.repoKey = a.owner ++ "/" ++ a.name := by
    intro a ha
    rcases mem_activities toLowerCase username repositories events _ acts hacts a ha with
      ⟨e, he, hea⟩ | ⟨i, _, hia⟩
    · exact eventActivity_key toLowerCase username repositories e a hea
        (hwf a (mem_eventActivities_of_mem toLowerCase username repositories events e a he hea))
    · exact searchActivity_key toLowerCase username repositories i a hia
  have hentry : ∀ e ∈ st.contributionMap, e.2.owner ++ "/" ++ e.2.name = e.1 := by
    intro e he
    obtain ⟨⟨first, hhead, hn, ho, _, _⟩, _⟩ := hrec e.1 e.2 he
    have hin := List.mem_of_mem_head? hhead
    simp only [activitiesOf, List.mem_filter, decide_eq_true_eq] at hin
    rw [hn, ho, ← hkey first hin.1, hin.2]
  have hpairs : (st.contributionMap.map (fun e => (e.2.owner, e.2.name))).Nodup := by
    apply List.Nodup.of_map (fun p : String × String => p.1 ++ "/" ++ p.2)
    rw [List.map_map]
    have : st.contributionMap.map
        ((fun p : String × String => p.1 ++ "/" ++ p.2) ∘ fun e => (e.2.owner, e.2.name)) =
        st.contributionMap.keys := by
      unfold ContributionMap.keys
      apply List.map_congr_left
      intro e he
      exact hentry e he
    rw [this]
    exact hnodup
  have hperm' := hperm.map (fun r : RepositorySummary => (r.owner, r.name))
  rw [List.map_map] at hperm'
  exact hperm'.nodup_iff.2 hpairs

theorem one_record_per_key_witness :
    (∀ a ∈ eventActivities asciiToLowerCase "octocat" sampleRepositories sampleEvents,
      OwnerSlashName a.repoKey) ∧
    (sampleSummary.repositories.map (fun r => (r.owner, r.name))).Nodup :=
  ⟨by decide,
    (one_record_per_key asciiToLowerCase "octocat" sampleRepositories sampleEvents
      (.success samplePullRequests) (.success sampleIssues) 1000 sampleSummary
      (by decide)).2 (by decide)⟩

/-! ## Verification -/

/-- C11: `verifyUsername` returns `{ exists: false }` without throwing when the lookup is
rejected with status 404; it throws the verification error for every other rejection (any
other status, or no response at all); and when the lookup succeeds it returns
`exists: true` with an object holding exactly the response's `login`, `name`,
`avatar_url`, `public_repos`, `followers` and `following`. -/
theorem verifyUsername_outcomes :
    verifyUsername (.failure (some 404)) = .ok { «exists» := false, data := none } ∧
    (∀ status : Option Nat, status ≠ some 404 →
      verifyUsername (.failure status) = .error "Failed to verify GitHub username") ∧
    ∀ response : UserResponse,
      verifyUsername (.success response) =
        .ok
          { «exists» := true
            data := some
              { login := response.login
                name := response.name
                avatar_url := response.avatar_url
                public_repos := response.public_repos
                followers := response.followers
                following := response.following } } := by
  refine ⟨rfl, ?_, fun _ => rfl⟩
  intro status hs
  simp [verifyUsername, hs]

theorem verifyUsername_outcomes_witness :
    verifyUsername (.failure (some 500)) = .error "Failed to verify GitHub username" ∧
    verifyUsername (.failure none) = .error "Failed to verify GitHub username" ∧
    verifyUsername (.success sampleUser) =
      .ok
        { «exists» := true
          data := some
            { login := "octocat", name := some "The Octocat"
              avatar_url := "https://avatars.githubusercontent.com/u/583231"
              public_repos := 8, followers := 100, following := 9 } } :=
  ⟨verifyUsername_outcomes.2.1 (some 500) (by decide),
    verifyUsername_outcomes.2.1 none (by decide),
    verifyUsername_outcomes.2.2 sampleUser⟩

/-! ## Owners in another letter case outside ASCII -/

/-- With a lower-casing function that covers the letters involved, the run for `école`
skips the event on `ÉCOLE/repo`, although the listing has that repository with 5000 stars:
only the event on `rails/rails` is folded, at the lowest multiplier. -/
theorem latin1_owner_skipped :
    analyzeContributions latin1ToLowerCase "école" (.success ecoleRepositories)
        (.success ecoleEvents) (.success []) (.success []) 1000 = .ok ecoleSummary ∧
      eventActivity latin1ToLowerCase "école" ecoleRepositories
        ⟨"PushEvent", some ⟨some "ÉCOLE/repo"⟩, 100⟩ = none :=
  ⟨by decide, by decide⟩

/-! ## The total -/

theorem mutate_of_not_mem (m : ContributionMap) (k : String)
    (f : RepoContribution → RepoContribution) (h : k ∉ m.keys) : m.mutate k f = m := by
  induction m with
  | nil => rfl
  | cons e m ih =>
    rw [keys_cons, List.mem_cons, not_or] at h
    rw [mutate_cons, ih h.2, if_neg (fun he => h.1 he.symm)]

theorem points_mutate_bump (m : ContributionMap) (a : Activity)
    (hk : a.repoKey ∈ m.keys) (hn : m.keys.Nodup) :
    ((m.mutate a.repoKey a.bump).map (fun e => e.2.points)).sum =
      (m.map (fun e => e.2.points)).sum + a.points := by
  induction m with
  | nil => simp [ContributionMap.keys] at hk
  | cons e m ih =>
    rw [keys_cons, List.nodup_cons] at hn
    rw [keys_cons, List.mem_cons] at hk
    rw [mutate_cons]
    by_cases he : e.1 = a.repoKey
    · rw [if_pos he, mutate_of_not_mem m a.repoKey a.bump (he ▸ hn.1)]
      simp only [List.map_cons, List.sum_cons, Activity.bump]
      omega
    · rw [if_neg he]
      have hk' : a.repoKey ∈ ContributionMap.keys m := by
        rcases hk with hk | hk
        · exact absurd hk.symm he
        · exact hk
      simp only [List.map_cons, List.sum_cons, ih hk' hn.2]
      omega

/-- One activity adds its points to the sum of the records' points. -/
theorem points_applyActivity (st : AnalysisState) (a : Activity)
    (hn : st.contributionMap.keys.Nodup) :
    ((applyActivity st a).contributionMap.map (fun e => e.2.points)).sum =
      (st.contributionMap.map (fun e => e.2.points)).sum + a.points := by
  unfold applyActivity
  dsimp only
  by_cases h : a.repoKey ∈ st.contributionMap.keys
  · rw [if_pos ((has_iff_mem_keys _ _).2 h)]
    exact points_mutate_bump _ a h hn
  · rw [if_neg (by rw [has_eq_false _ _ h]; simp)]
    have hkeys := keys_set_new st.contributionMap a.repoKey a.fresh h
    have hmem : a.repoKey ∈ (st.contributionMap.set a.repoKey a.fresh).keys := by
      rw [hkeys]
      simp
    have hnd : (st.contributionMap.set a.repoKey a.fresh).keys.Nodup := by
      rw [hkeys]
      exact List.Nodup.append hn (List.nodup_singleton _) (by simpa using h)
    rw [points_mutate_bump _ a hmem hnd]
    simp [ContributionMap.set, has_eq_false _ _ h, Activity.fresh]

/-- The running total is the sum of the points of the stored records. -/
theorem points_folded (acts : List Activity) :
    ((folded acts).contributionMap.map (fun e => e.2.points)).sum =
      (folded acts).totalPoints := by
  induction acts using List.reverseRecOn with
  | nil => rfl
  | append_singleton acts a ih =>
    rw [folded_snoc, points_applyActivity _ a (nodup_keys_folded acts),
      totalPoints_applyActivity, ih]

theorem points_buildSummary (st : AnalysisState) (now : Int) :
    ((buildSummary st now).repositories.map (fun r => r.points)).sum =
      (st.contributionMap.map (fun e => e.2.points)).sum := by
  simp only [buildSummary, List.map_map]
  have hperm := (sortByPoints_perm (st.contributionMap.map (fun e => e.2))).map
    ((fun r : RepositorySummary => r.points) ∘ RepoContribution.strip)
  rw [hperm.sum_eq, List.map_map]
  rfl

/-- C14: whenever `analyzeContributions` returns, the returned `totalPoints` is the sum of
the `points` of the records of the returned repositories sequence; and without events and
search results it returns total 0 with an empty sequence. -/
theorem totalPoints_is_sum_of_records (toLowerCase : String → String)
    (username : String)
    (reposResponse : HttpResult (List Repository)) (eventsResponse : HttpResult (List Event))
    (prResponse issueResponse : HttpResult (List SearchItem)) (now : Int)
    (summary : ContributionSummary)
    (h : analyzeContributions toLowerCase username reposResponse eventsResponse prResponse
        issueResponse
      now = .ok summary) :
    summary.totalPoints = (summary.repositories.map (fun r => r.points)).sum ∧
    ∀ repositories : List Repository,
      analyzeContributions toLowerCase username (.success repositories) (.success []) (.success [])
        (.success []) now = .ok { totalPoints := 0, repositories := [], lastUpdated := now } := by
  refine ⟨?_, fun _ => rfl⟩
  obtain ⟨repositories, events, _, _, hf⟩ := analyzeContributions_ok toLowerCase username
      reposResponse
    eventsResponse prResponse issueResponse now summary h
  obtain ⟨acts, _, _, hsum⟩ := analyzeFetched_ok toLowerCase username repositories events _ now
      summary hf
  rw [hsum, points_buildSummary, points_folded]
  rfl

theorem totalPoints_is_sum_of_records_witness :
    sampleSummary.totalPoints = (sampleSummary.repositories.map (fun r => r.points)).sum ∧
    ∀ repositories : List Repository,
      analyzeContributions asciiToLowerCase "octocat" (.success repositories) (.success [])
          (.success [])
        (.success []) 1000 =
          .ok { totalPoints := 0, repositories := [], lastUpdated := 1000 } :=
  totalPoints_is_sum_of_records asciiToLowerCase "octocat" (.success sampleRepositories)
    (.success sampleEvents) (.success samplePullRequests) (.success sampleIssues) 1000
    sampleSummary (by decide)

/-! ## Segments of a split -/

theorem splitChars_no_sep (sep : Char) (cs : List Char) (h : sep ∉ cs) :
    splitChars sep cs = [cs] := by
  induction cs with
  | nil => rfl
  | cons c cs ih =>
    rw [List.mem_cons, not_or] at h
    unfold splitChars
    rw [if_neg (fun hc => h.1 hc.symm), ih h.2]

theorem splitChars_cons (sep c : Char) (cs : List Char) :
    splitChars sep (c :: cs) =
      if c = sep then [] :: splitChars sep cs
      else
        match splitChars sep cs with
        | [] => [[c]]
        | seg :: rest => (c :: seg) :: rest := rfl

theorem splitChars_append (sep : Char) (a b : List Char) (h : sep ∉ a) :
    splitChars sep (a ++ sep :: b) = a :: splitChars sep b := by
  induction a with
  | nil =>
    show splitChars sep (sep :: b) = _
    rw [splitChars_cons, if_pos rfl]
  | cons c cs ih =>
    rw [List.mem_cons, not_or] at h
    show splitChars sep (c :: (cs ++ sep :: b)) = _
    rw [splitChars_cons, if_neg (fun hc => h.1 hc.symm), ih h.2]

theorem mem_splitChars_no_sep (sep : Char) (cs seg : List Char)
    (h : seg ∈ splitChars sep cs) : sep ∉ seg := by
  induction cs generalizing seg with
  | nil =>
    simp only [splitChars, List.mem_singleton] at h
    subst h
    simp
  | cons c cs ih =>
    unfold splitChars at h
    split_ifs at h with hc
    · rcases List.mem_cons.1 h with h | h
      · subst h
        simp
      · exact ih seg h
    · cases hs : splitChars sep cs with
      | nil => exact absurd hs (splitChars_ne_nil sep cs)
      | cons first rest =>
        rw [hs] at h ih
        rcases List.mem_cons.1 h with h | h
        · subst h
          have := ih first (List.mem_cons_self _ _)
          simp only [List.mem_cons, not_or]
          exact ⟨fun e => hc e.symm, this⟩
        · exact ih seg (List.mem_cons_of_mem _ h)

theorem mem_split_no_slash (s seg : String) (h : seg ∈ split s) : '/' ∉ seg.data := by
  unfold split at h
  obtain ⟨cs, hcs, rfl⟩ := List.mem_map.1 h
  exact mem_splitChars_no_sep '/' s.data cs hcs

theorem split_no_slash (s : String) (h : '/' ∉ s.data) : split s = [s] := by
  unfold split
  rw [splitChars_no_sep '/' s.data h]
  rfl

theorem split_append (owner name : String) (h : '/' ∉ owner.data) :
    split (owner ++ "/" ++ name) = owner :: split name := by
  unfold split
  have hd : (owner ++ "/" ++ name).data = owner.data ++ '/' :: name.data := by
    simp [String.data_append]
  rw [hd, splitChars_append '/' owner.data name.data h]
  rfl

theorem index_mem (xs : List String) (i : Int) (x : String) (h : index xs i = some x) :
    x ∈ xs := by
  unfold index at h
  split_ifs at h
  exact List.getElem?_mem h

/-! ## Events without an owner segment -/

/-- An event without a repository name, or with nothing before the first `/` of the name,
is not folded. -/
theorem eventActivity_no_owner (toLowerCase : String → String)
    (username : String) (repositories : List Repository)
    (event : Event) (h : event.ownerSegment = none ∨ event.ownerSegment = some "") :
    eventActivity toLowerCase username repositories event = none := by
  unfold eventActivity
  cases hk : truthy (event.repo.bind (fun repo => repo.name)) with
  | none => rfl
  | some repoKey =>
    dsimp only
    have hname := (truthy_eq_some _ _ hk).1
    rw [Event.ownerSegment, hname, Option.some_bind] at h
    rcases h with h | h
    · rw [h]
      rfl
    · rw [h]
      rfl

/-- C13, as stated, fails: an event whose repository name `rails` has no `/` is folded;
the whole name is the owner and the name of the record it creates, which counts one
contribution and 8 points. -/
theorem slashless_event_is_folded :
    analyzeContributions asciiToLowerCase "octocat" (.success [])
        (.success [⟨"PushEvent", some ⟨some "rails"⟩, 100⟩]) (.success []) (.success [])
        1000 =
      .ok
        { totalPoints := 8
          repositories := [⟨"rails", "rails", "https://github.com/rails", 1, 8, some 100⟩]
          lastUpdated := 1000 } := by
  decide

/-- C13, amended: an event that lacks a repository field or a repository name, or whose
repository name has nothing before its first `/`, is skipped entirely: adding it anywhere
in the event list leaves the result of `analyzeContributions` unchanged.  An event whose
non-empty repository name contains no `/` and is not the queried user's name is folded:
the record under that name counts one more contribution, and a record it creates has the
whole name as owner and as name. -/
theorem ownerless_event_skipped (toLowerCase : String → String)
    (username : String) (repositories : List Repository)
    (event : Event) :
    (event.ownerSegment = none ∨ event.ownerSegment = some "" →
      ∀ (reposResponse : HttpResult (List Repository)) (earlier later : List Event)
        (prResponse issueResponse : HttpResult (List SearchItem)) (now : Int),
        analyzeContributions toLowerCase username reposResponse (.success (earlier ++ event ::
            later))
            prResponse issueResponse now =
          analyzeContributions toLowerCase username reposResponse (.success (earlier ++ later))
            prResponse issueResponse now) ∧
    ∀ repoKey : String, event.repo.bind (fun repo => repo.name) = some repoKey →
      repoKey ≠ "" → '/' ∉ repoKey.data → toLowerCase repoKey ≠ toLowerCase username →
      ∀ st : AnalysisState, ∃ rc,
        (processEvent toLowerCase username repositories st event).contributionMap.get repoKey =
          some rc ∧
        rc.contributions =
          ((st.contributionMap.get repoKey).map (fun old => old.contributions)).getD 0 + 1 ∧
        (st.contributionMap.get repoKey = none → rc.owner = repoKey ∧ rc.name = repoKey) := by
  constructor
  · intro h reposResponse earlier later prResponse issueResponse now
    cases reposResponse with
    | failure s => rfl
    | success repos =>
      have hskip : ∀ st, processEvent toLowerCase username repos st event = st := by
        intro st
        rw [processEvent_eq, eventActivity_no_owner toLowerCase username repos event h]
      simp only [analyzeContributions, getUserRepositories, getUserEvents, analyzeFetched,
        aggregate, List.foldl_append, List.foldl_cons, hskip]
  · intro repoKey hrepo hne hslash hother st
    have hsplit := split_no_slash repoKey hslash
    have hact : eventActivity toLowerCase username repositories event = some
        { repoKey := repoKey
          name := repoKey
          owner := repoKey
          url := (truthy ((findRepo repositories repoKey).bind (fun r => r.html_url))).getD
            ("https://github.com/" ++ repoKey)
          stargazers_count := starsOf (findRepo repositories repoKey)
          points := (eventPoints event.type (findRepo repositories repoKey)).toNat
          date := event.created_at } := by
      unfold eventActivity
      rw [hrepo, truthy_some repoKey hne]
      dsimp only
      rw [hsplit]
      simp only [List.getElem?_cons_zero, truthy_some repoKey hne, if_neg hother]
      rfl
    rw [processEvent_eq, hact]
    dsimp only
    refine ⟨_, by rw [get_applyActivity, if_pos rfl], ?_, ?_⟩
    · cases st.contributionMap.get repoKey <;> simp [Activity.bump, Activity.fresh]
    · intro hnone
      rw [hnone]
      exact ⟨rfl, rfl⟩

theorem ownerless_event_skipped_witness :
    analyzeContributions asciiToLowerCase "octocat" (.success sampleRepositories)
        (.success ([⟨"PushEvent", some ⟨some "rails/rails"⟩, 100⟩] ++
          ⟨"ForkEvent", some ⟨some "/Hello-World"⟩, 400⟩ ::
          [⟨"IssueCommentEvent", some ⟨some "vuejs/vue"⟩, 200⟩]))
        (.success samplePullRequests) (.success sampleIssues) 1000 =
      analyzeContributions asciiToLowerCase "octocat" (.success sampleRepositories)
        (.success ([⟨"PushEvent", some ⟨some "rails/rails"⟩, 100⟩] ++
          [⟨"IssueCommentEvent", some ⟨some "vuejs/vue"⟩, 200⟩]))
        (.success samplePullRequests) (.success sampleIssues) 1000 :=
  (ownerless_event_skipped asciiToLowerCase "octocat" sampleRepositories
    ⟨"ForkEvent", some ⟨some "/Hello-World"⟩, 400⟩).1 (Or.inr (by decide))
    (.success sampleRepositories) [⟨"PushEvent", some ⟨some "rails/rails"⟩, 100⟩]
    [⟨"IssueCommentEvent", some ⟨some "vuejs/vue"⟩, 200⟩]
    (.success samplePullRequests) (.success sampleIssues) 1000

/-! ## Records created by the search loop -/

/-- C12, at a listing entry whose `html_url` differs from the synthesized url: the record
the search loop creates for `rails/rails` has the synthesized url, the record the event
loop creates for the same key has the listing's `html_url`; name, owner and popularity
agree. -/
theorem search_record_ignores_listing_url :
    (processSearchItem asciiToLowerCase "octocat" mirroredRepositories ⟨[], 0⟩
        ⟨some "https://api.github.com/repos/rails/rails", true, some 250, 50⟩).map
        (fun st => st.contributionMap.map (fun e => (e.1, e.2.identity))) =
      .ok [("rails/rails", "rails", "rails", "https://github.com/rails/rails", 5000)] ∧
    (processEvent asciiToLowerCase "octocat" mirroredRepositories ⟨[], 0⟩
        ⟨"PullRequestEvent", some ⟨some "rails/rails"⟩, 250⟩).contributionMap.map
        (fun e => (e.1, e.2.identity)) =
      [("rails/rails", "rails", "rails", "https://example.org/mirror/rails", 5000)] :=
  ⟨by decide, by decide⟩

/-! ## A listing of the user's own repositories -/

theorem findRepo_eq_some (repositories : List Repository) (repoKey : String)
    (r : Repository) (h : findRepo repositories repoKey = some r) :
    r ∈ repositories ∧ r.full_name = repoKey := by
  unfold findRepo at h
  refine ⟨List.mem_of_find?_eq_some h, ?_⟩
  have := List.find?_some h
  simpa using this

/-- No listing entry of the user's own repositories has the key of a folded event. -/
theorem eventActivity_no_match (toLowerCase : String → String)
    (username : String) (repositories : List Repository)
    (event : Event) (a : Activity) (h : eventActivity toLowerCase username repositories event =
        some a)
    (hown : ∀ r ∈ repositories,
      ((split r.full_name)[0]?).map toLowerCase = some (toLowerCase username)) :
    findRepo repositories a.repoKey = none := by
  obtain ⟨k, o, _, ho, hl, rfl⟩ := eventActivity_eq_some toLowerCase username repositories event a h
  dsimp only
  cases hf : findRepo repositories k with
  | none => rfl
  | some r =>
    obtain ⟨hmem, hname⟩ := findRepo_eq_some repositories k r hf
    have := hown r hmem
    rw [hname, (truthy_eq_some _ _ ho).1] at this
    simp only [Option.map_some', Option.some.injEq] at this
    exact absurd this hl

/-- No listing entry of the user's own repositories has the key of a folded search item. -/
theorem searchActivity_no_match (toLowerCase : String → String)
    (username : String) (repositories : List Repository)
    (item : SearchItem) (a : Activity)
    (h : searchActivity toLowerCase username repositories item = .ok (some a))
    (hown : ∀ r ∈ repositories,
      ((split r.full_name)[0]?).map toLowerCase = some (toLowerCase username)) :
    findRepo repositories a.repoKey = none := by
  obtain ⟨u, o, _, ho, hl, rfl⟩ := searchActivity_eq_some toLowerCase username repositories item a h
  dsimp only
  cases hf : findRepo repositories (o ++ "/" ++
      template (index (split u) (((split u).length : Int) - 1))) with
  | none => rfl
  | some r =>
    obtain ⟨hmem, hname⟩ := findRepo_eq_some repositories _ r hf
    have := hown r hmem
    rw [hname, split_append o _ (mem_split_no_slash u o (index_mem _ _ o ho))] at this
    simp only [List.getElem?_cons_zero, Option.map_some', Option.some.injEq] at this
    exact absurd this hl

theorem eventPoints_unlisted (eventType : String) :
    (eventPoints eventType none).toNat =
      if eventType = "PushEvent" then 8
      else if eventType = "PullRequestEvent" then 20
      else if eventType = "IssuesEvent" then 12
      else if eventType = "WatchEvent" then 4
      else if eventType = "ForkEvent" then 6
      else 2 := by
  unfold eventPoints
  split_ifs <;> rfl

/-- C15: when every entry of the repository listing has a `full_name` whose owner segment
is the queried username up to letter case (the two have the same `toLowerCase`, for
whatever lower-casing function the engine provides), no folded activity finds a listing
entry for its key: its multiplier is the lowest, 0.8, whatever the repository's real star count, so
a folded event adds 8 (`PushEvent`), 20 (`PullRequestEvent`), 12 (`IssuesEvent`),
4 (`WatchEvent`), 6 (`ForkEvent`) or 2 (any other type), a folded search item adds 20 (pull
request) or 12 (issue), and the url of every record of the summary is
`https://github.com/` followed by the key it is stored under. -/
theorem own_listing_never_matches (toLowerCase : String → String)
    (username : String)
    (repositories : List Repository) (events : List Event)
    (prResponse issueResponse : HttpResult (List SearchItem)) (now : Int)
    (summary : ContributionSummary)
    (h : analyzeContributions toLowerCase username (.success repositories) (.success events)
        prResponse
      issueResponse now = .ok summary)
    (hown : ∀ r ∈ repositories,
      ((split r.full_name)[0]?).map toLowerCase = some (toLowerCase username)) :
    ∃ st acts,
      aggregate toLowerCase username repositories events
        (getUserContributionsViaSearch prResponse issueResponse) = .ok st ∧
      activities toLowerCase username repositories events
        (getUserContributionsViaSearch prResponse issueResponse) = .ok acts ∧
      (∀ a ∈ acts, findRepo repositories a.repoKey = none ∧
        multiplierTenths (starsOf (findRepo repositories a.repoKey)) = 8 ∧
        a.points ∈ [8, 20, 12, 4, 6, 2]) ∧
      (∀ event ∈ events, ∀ a, eventActivity toLowerCase username repositories event = some a →
        a.points =
          if event.type = "PushEvent" then 8
          else if event.type = "PullRequestEvent" then 20
          else if event.type = "IssuesEvent" then 12
          else if event.type = "WatchEvent" then 4
          else if event.type = "ForkEvent" then 6
          else 2) ∧
      (∀ item ∈ getUserContributionsViaSearch prResponse issueResponse, ∀ a,
        searchActivity toLowerCase username repositories item = .ok (some a) →
        a.points = if item.pull_request then 20 else 12) ∧
      ∀ r ∈ summary.repositories,
        (∃ e ∈ st.contributionMap, e.2.strip = r) ∧
        ∀ e ∈ st.contributionMap, e.2.strip = r → r.url = "https://github.com/" ++ e.1 := by
  obtain ⟨st, acts, hagg, hacts, hsum, _, _, _, hrec⟩ := record_of_summary toLowerCase username
    repositories events _ now summary h
  have hevent : ∀ event a, eventActivity toLowerCase username repositories event = some a →
      a.url = "https://github.com/" ++ a.repoKey ∧
      a.points =
        if event.type = "PushEvent" then 8
        else if event.type = "PullRequestEvent" then 20
        else if event.type = "IssuesEvent" then 12
        else if event.type = "WatchEvent" then 4
        else if event.type = "ForkEvent" then 6
        else 2 := by
    intro event a ha
    have hnone := eventActivity_no_match toLowerCase username repositories event a ha hown
    obtain ⟨k, o, _, _, _, rfl⟩ := eventActivity_eq_some toLowerCase username repositories event a
        ha
    dsimp only at hnone ⊢
    rw [hnone]
    exact ⟨rfl, eventPoints_unlisted event.type⟩
  have hitem : ∀ item a, searchActivity toLowerCase username repositories item = .ok (some a) →
      a.url = "https://github.com/" ++ a.repoKey ∧
      a.points = if item.pull_request then 20 else 12 := by
    intro item a ha
    have hnone := searchActivity_no_match toLowerCase username repositories item a ha hown
    obtain ⟨u, o, _, _, _, rfl⟩ := searchActivity_eq_some toLowerCase username repositories item a
        ha
    dsimp only at hnone ⊢
    rw [hnone]
    refine ⟨rfl, ?_⟩
    cases item.pull_request <;> rfl
  have hact : ∀ a ∈ acts, findRepo repositories a.repoKey = none ∧
      a.url = "https://github.com/" ++ a.repoKey ∧ a.points ∈ [8, 20, 12, 4, 6, 2] := by
    intro a ha
    rcases mem_activities toLowerCase username repositories events _ acts hacts a ha with
      ⟨e, _, hea⟩ | ⟨i, _, hia⟩
    · refine ⟨eventActivity_no_match toLowerCase username repositories e a hea hown,
        (hevent e a hea).1, ?_⟩
      rw [(hevent e a hea).2]
      split_ifs <;> simp
    · refine ⟨searchActivity_no_match toLowerCase username repositories i a hia hown,
        (hitem i a hia).1, ?_⟩
      rw [(hitem i a hia).2]
      split_ifs <;> simp
  refine ⟨st, acts, hagg, hacts, ?_, fun e _ a ha => (hevent e a ha).2,
    fun i _ a ha => (hitem i a ha).2, ?_⟩
  · intro a ha
    obtain ⟨hnone, _, hpts⟩ := hact a ha
    refine ⟨hnone, ?_, hpts⟩
    rw [hnone]
    rfl
  · intro r hr
    rw [hsum, mem_repositories] at hr
    obtain ⟨k, rc, hmem, hstrip⟩ := hr
    refine ⟨⟨(k, rc), hmem, hstrip⟩, ?_⟩
    intro e he hse
    obtain ⟨⟨first, hhead, _, _, hu, _⟩, _⟩ := hrec e.1 e.2 he
    have hin := List.mem_of_mem_head? hhead
    simp only [activitiesOf, List.mem_filter, decide_eq_true_eq] at hin
    rw [← hse]
    show e.2.url = _
    rw [hu, (hact first hin.1).2.1, hin.2]

theorem own_listing_never_matches_witness :
    (∃ st acts,
      aggregate asciiToLowerCase "octocat" ownRepositories sampleEvents
        (getUserContributionsViaSearch (.success samplePullRequests)
          (.success sampleIssues)) = .ok st ∧
      activities asciiToLowerCase "octocat" ownRepositories sampleEvents
        (getUserContributionsViaSearch (.success samplePullRequests)
          (.success sampleIssues)) = .ok acts ∧
      (∀ a ∈ acts, findRepo ownRepositories a.repoKey = none ∧
        multiplierTenths (starsOf (findRepo ownRepositories a.repoKey)) = 8 ∧
        a.points ∈ [8, 20, 12, 4, 6, 2]) ∧
      (∀ event ∈ sampleEvents, ∀ a,
        eventActivity asciiToLowerCase "octocat" ownRepositories event = some a →
        a.points =
          if event.type = "PushEvent" then 8
          else if event.type = "PullRequestEvent" then 20
          else if event.type = "IssuesEvent" then 12
          else if event.type = "WatchEvent" then 4
          else if event.type = "ForkEvent" then 6
          else 2) ∧
      (∀ item ∈ getUserContributionsViaSearch (.success samplePullRequests)
          (.success sampleIssues), ∀ a,
        searchActivity asciiToLowerCase "octocat" ownRepositories item = .ok (some a) →
        a.points = if item.pull_request then 20 else 12) ∧
      ∀ r ∈ ownSummary.repositories,
        (∃ e ∈ st.contributionMap, e.2.strip = r) ∧
        ∀ e ∈ st.contributionMap, e.2.strip = r → r.url = "https://github.com/" ++ e.1) ∧
    ∃ st acts,
      aggregate latin1ToLowerCase "école" ecoleRepositories ecoleEvents
        (getUserContributionsViaSearch (.success []) (.success [])) = .ok st ∧
      activities latin1ToLowerCase "école" ecoleRepositories ecoleEvents
        (getUserContributionsViaSearch (.success []) (.success [])) = .ok acts ∧
      (∀ a ∈ acts, findRepo ecoleRepositories a.repoKey = none ∧
        multiplierTenths (starsOf (findRepo ecoleRepositories a.repoKey)) = 8 ∧
        a.points ∈ [8, 20, 12, 4, 6, 2]) ∧
      (∀ event ∈ ecoleEvents, ∀ a,
        eventActivity latin1ToLowerCase "école" ecoleRepositories event = some a →
        a.points =
          if event.type = "PushEvent" then 8
          else if event.type = "PullRequestEvent" then 20
          else if event.type = "IssuesEvent" then 12
          else if event.type = "WatchEvent" then 4
          else if event.type = "ForkEvent" then 6
          else 2) ∧
      (∀ item ∈ getUserContributionsViaSearch (.success []) (.success []), ∀ a,
        searchActivity latin1ToLowerCase "école" ecoleRepositories item = .ok (some a) →
        a.points = if item.pull_request then 20 else 12) ∧
      ∀ r ∈ ecoleSummary.repositories,
        (∃ e ∈ st.contributionMap, e.2.strip = r) ∧
        ∀ e ∈ st.contributionMap, e.2.strip = r → r.url = "https://github.com/" ++ e.1 :=
  ⟨own_listing_never_matches asciiToLowerCase "octocat" ownRepositories sampleEvents
      (.success samplePullRequests) (.success sampleIssues) 1000 ownSummary (by decide)
      (by decide),
    own_listing_never_matches latin1ToLowerCase "école" ecoleRepositories ecoleEvents
      (.success []) (.success []) 1000 ecoleSummary (by decide) (by decide)⟩

end GitHubService
